import Mathlib

/-!
# go-json-crud: the in-memory store, its JSON snapshots and its handlers

A shallow embedding of `database/database.go`, `models/item.go` and
`handlers/handlers.go`.

* `*models.Item` values held by the store are modelled by the record they
  point to; a nil pointer is `none` where the source can meet one (the slice
  filled by the JSON decoder). The namespace `Ptr` has the same methods on
  addresses and an explicit heap, for the statements about shared pointers.
* `map[string]*models.Item` is a key-unique association list. Go leaves the
  iteration order of a map unspecified; the list order stands for it, and
  every statement about a sequence obtained by ranging over the map is made
  up to permutation.
* The methods of the store are functions of the store: a call runs from its
  first statement to its return. `sync.RWMutex` appears where a statement is
  about it: in `SaveToFileEvents`, the lock and file operations of one save
  in their order, and in `step`, the steps of goroutines that call `Create`
  at the same time.
* `encoding/json`, the clock and the file system are outside the repository:
  the encoder and the decoder are parameters of `SaveToFile`, `LoadFromFile`
  and the handlers, and a file system is a table of file contents.
-/

namespace GoCrud

/-! ## models/item.go -/

/-- Record type `models.Item`. The two `time.Time` fields are the instants
they denote, counted in nanoseconds from the zero `time.Time`. -/
structure Item where
  ID : String
  Name : String
  Description : String
  CreatedAt : Int
  UpdatedAt : Int
deriving DecidableEq, Repr

/-! ## Errors -/

/-- Error values that the store can return. `ErrNotFound` and `ErrInvalidID`
are the two package-level sentinels; `New text` is a value made on the spot by
`errors.New(text)`; `EOF` is `io.EOF`; `Other text` is any other error handed
back by the operating system or by `encoding/json`. -/
inductive Error where
  | ErrNotFound
  | ErrInvalidID
  | New (text : String)
  | EOF
  | Other (text : String)
deriving DecidableEq, Repr

/-! ## The Go map -/

/-- Look a key up in a list of entries. -/
def lookupIn : List (String × Item) → String → Option Item
  | [], _ => none
  | (k', v') :: rest, k => if k' = k then some v' else lookupIn rest k

/-- Overwrite the entry of `k` where it stands, or add one at the end. -/
def assignIn : List (String × Item) → String → Item → List (String × Item)
  | [], k, v => [(k, v)]
  | (k', v') :: rest, k, v =>
      if k' = k then (k, v) :: rest else (k', v') :: assignIn rest k v

/-- Drop the entry of `k`. -/
def deleteIn (l : List (String × Item)) (k : String) : List (String × Item) :=
  l.filter (fun e => decide (e.1 ≠ k))

theorem mem_keys_assignIn (l : List (String × Item)) (k : String) (v : Item) (x : String) :
    x ∈ (assignIn l k v).map Prod.fst ↔ x ∈ l.map Prod.fst ∨ x = k := by
  induction l with
  | nil => simp [assignIn]
  | cons e rest ih =>
    obtain ⟨k', v'⟩ := e
    by_cases h : k' = k
    · subst h
      simp only [assignIn, if_true, List.map_cons, List.mem_cons]
      tauto
    · simp only [assignIn, if_neg h, List.map_cons, List.mem_cons, ih]
      tauto

theorem nodup_keys_assignIn (l : List (String × Item)) (k : String) (v : Item)
    (h : (l.map Prod.fst).Nodup) : ((assignIn l k v).map Prod.fst).Nodup := by
  induction l with
  | nil => simp [assignIn]
  | cons e rest ih =>
    obtain ⟨k', v'⟩ := e
    simp only [List.map_cons, List.nodup_cons] at h
    by_cases hk : k' = k
    · subst hk
      simp only [assignIn, if_true, List.map_cons, List.nodup_cons]
      exact h
    · simp only [assignIn, if_neg hk, List.map_cons, List.nodup_cons, mem_keys_assignIn]
      exact ⟨fun hx => hx.elim h.1 hk, ih h.2⟩

theorem nodup_keys_deleteIn (l : List (String × Item)) (k : String)
    (h : (l.map Prod.fst).Nodup) : ((deleteIn l k).map Prod.fst).Nodup :=
  h.sublist ((List.filter_sublist l).map Prod.fst)

/-- Go `map[string]*models.Item`: entries with pairwise distinct keys. -/
structure ItemMap where
  entries : List (String × Item)
  nodup : (entries.map Prod.fst).Nodup

namespace ItemMap

/-- Go `make(map[string]*models.Item)`. -/
def make : ItemMap := ⟨[], List.nodup_nil⟩

/-- Go `v, exists := m[k]`; `none` stands for `exists == false`. -/
def index (m : ItemMap) (k : String) : Option Item := lookupIn m.entries k

/-- Go `m[k] = v`. -/
def assign (m : ItemMap) (k : String) (v : Item) : ItemMap :=
  ⟨assignIn m.entries k v, nodup_keys_assignIn m.entries k v m.nodup⟩

/-- Go `delete(m, k)`. -/
def delete (m : ItemMap) (k : String) : ItemMap :=
  ⟨deleteIn m.entries k, nodup_keys_deleteIn m.entries k m.nodup⟩

/-- Go `len(m)`. -/
def len (m : ItemMap) : Nat := m.entries.length

/-- The values met by `for _, item := range m`, in the order of the visit. -/
def range (m : ItemMap) : List Item := m.entries.map Prod.snd

end ItemMap

instance : DecidableEq ItemMap := fun a b =>
  if h : a.entries = b.entries then
    isTrue (by cases a; cases b; cases h; rfl)
  else
    isFalse (fun e => h (by rw [e]))

/-! ## database/database.go -/

/-- Struct `InMemoryDB`, without its mutex. -/
structure InMemoryDB where
  items : ItemMap
  persistPath : String
  autoSave : Bool
deriving DecidableEq

/-- Struct `Config`. -/
structure Config where
  PersistPath : String
  AutoSave : Bool

/-- `NewInMemoryDB`. -/
def NewInMemoryDB : InMemoryDB :=
  { items := ItemMap.make, persistPath := "", autoSave := false }

/-- What a call of `Create`, `Update` or `Delete` leaves behind: the returned
error (`none` for `nil`), the store, and the paths of the `go db.SaveToFile(..)`
goroutines the call started. -/
structure Outcome where
  err : Option Error
  db : InMemoryDB
  spawned : List String
deriving DecidableEq

/-- The auto-save tail shared by the three mutating calls:
`if db.autoSave && db.persistPath != "" ...`. -/
def autoSaveGo (db : InMemoryDB) : List String :=
  if db.autoSave && decide (db.persistPath ≠ "") then [db.persistPath] else []

/-- `InMemoryDB.Get`: the pointer and the error it returns. -/
def Get (db : InMemoryDB) (id : String) : Option Item × Option Error :=
  if id = "" then (none, some Error.ErrInvalidID)
  else
    match db.items.index id with
    | none => (none, some Error.ErrNotFound)
    | some item => (some item, none)

/-- `InMemoryDB.Create`, called with a non-nil item. -/
def Create (db : InMemoryDB) (item : Item) : Outcome :=
  if item.ID = "" then { err := some Error.ErrInvalidID, db := db, spawned := [] }
  else
    match db.items.index item.ID with
    | some _ =>
        { err := some (Error.New "item with this ID already exists"), db := db, spawned := [] }
    | none =>
        let db1 := { db with items := db.items.assign item.ID item }
        { err := none, db := db1, spawned := autoSaveGo db1 }

/-- `InMemoryDB.Update`, called with a non-nil item. -/
def Update (db : InMemoryDB) (item : Item) : Outcome :=
  if item.ID = "" then { err := some Error.ErrInvalidID, db := db, spawned := [] }
  else
    match db.items.index item.ID with
    | none => { err := some Error.ErrNotFound, db := db, spawned := [] }
    | some _ =>
        let db1 := { db with items := db.items.assign item.ID item }
        { err := none, db := db1, spawned := autoSaveGo db1 }

/-- `InMemoryDB.Delete`. -/
def Delete (db : InMemoryDB) (id : String) : Outcome :=
  if id = "" then { err := some Error.ErrInvalidID, db := db, spawned := [] }
  else
    match db.items.index id with
    | none => { err := some Error.ErrNotFound, db := db, spawned := [] }
    | some _ =>
        let db1 := { db with items := db.items.delete id }
        { err := none, db := db1, spawned := autoSaveGo db1 }

/-- `InMemoryDB.GetAll`. -/
def GetAll (db : InMemoryDB) : List Item × Option Error :=
  (db.items.range, none)

/-! ### Snapshots -/

/-- The part of the file system the store touches: what `os.Open` followed by
reading the file gives for a path, and the error `os.Create` reports for a
path (`none` when it succeeds). File contents are lists of bytes. -/
structure FileSystem where
  read : String → Except Error (List Nat)
  createErr : String → Option Error

/-- The file at `path` now holds `bytes`. -/
def FileSystem.write (fs : FileSystem) (path : String) (bytes : List Nat) : FileSystem :=
  { fs with read := fun p => if p = path then Except.ok bytes else fs.read p }

/-- `InMemoryDB.SaveToFile`. `encode` is `json.Encoder.Encode` on a slice of
items: it marshals the whole slice first and writes only when that succeeded,
so a failed encoding leaves the file as `os.Create` made it, empty. -/
def SaveToFile (encode : List Item → Except Error (List Nat)) (fs : FileSystem)
    (db : InMemoryDB) (filepath : String) : Option Error × FileSystem :=
  let items := db.items.range
  match fs.createErr filepath with
  | some e => (some e, fs)
  | none =>
    match encode items with
    | Except.error e => (some e, fs.write filepath [])
    | Except.ok bytes => (none, fs.write filepath bytes)

/-- How a call of `LoadFromFile` ends: it returns an error value (`none` for
`nil`), or it stops with a nil-pointer dereference at `item.ID`. Both carry
the store as the call leaves it. -/
inductive LoadResult where
  | returned (err : Option Error) (db : InMemoryDB)
  | panicked (db : InMemoryDB)
deriving DecidableEq

/-- The loop `for _, item := range items { db.items[item.ID] = item }` over
the decoded slice; `none` is a nil element. `Except.error` is the panic, with
the map as filled so far. -/
def loadItems (m : ItemMap) : List (Option Item) → Except ItemMap ItemMap
  | [] => Except.ok m
  | none :: _ => Except.error m
  | some item :: rest => loadItems (m.assign item.ID item) rest

/-- `InMemoryDB.LoadFromFile`. `decode` is `json.NewDecoder(file).Decode(&items)`
for `items : []*models.Item`: the error it returns, or the slice it filled. -/
def LoadFromFile (decode : List Nat → Except Error (List (Option Item))) (fs : FileSystem)
    (db : InMemoryDB) (filepath : String) : LoadResult :=
  match fs.read filepath with
  | Except.error e => LoadResult.returned (some e) db
  | Except.ok bytes =>
    match decode bytes with
    | Except.error e =>
        if e = Error.EOF then LoadResult.returned none db
        else LoadResult.returned (some e) db
    | Except.ok items =>
        match loadItems ItemMap.make items with
        | Except.ok m => LoadResult.returned none { db with items := m }
        | Except.error m => LoadResult.panicked { db with items := m }

/-! ## Runs of the store -/

/-- One call of a mutating operation. -/
inductive Op where
  | create (item : Item)
  | update (item : Item)
  | delete (id : String)
deriving DecidableEq

/-- Perform one call. -/
def Op.apply (db : InMemoryDB) : Op → Outcome
  | Op.create item => Create db item
  | Op.update item => Update db item
  | Op.delete id => Delete db id

/-- The store after a sequence of calls. -/
def run (db : InMemoryDB) : List Op → InMemoryDB
  | [] => db
  | op :: ops => run (op.apply db).db ops

/-- The log of a sequence of calls: each call with the error it returned. -/
def history (db : InMemoryDB) : List Op → List (Op × Option Error)
  | [] => []
  | op :: ops => (op, (op.apply db).err) :: history (op.apply db).db ops

/-- What a logged call did to `id`, read off the log alone: `some (some item)`
for a successful Create or Update of an item with that id, `some none` for a
successful Delete of it, `none` when the call failed or concerned another id. -/
def writeOf (id : String) : Op × Option Error → Option (Option Item)
  | (Op.create item, none) => if item.ID = id then some (some item) else none
  | (Op.update item, none) => if item.ID = id then some (some item) else none
  | (Op.delete id', none) => if id' = id then some none else none
  | (_, some _) => none

/-- The last successful operation on `id` in a log, as the specification words
it; `none` when no operation on `id` succeeded. -/
def lastSuccessfulWrite (id : String) : List (Op × Option Error) → Option (Option Item)
  | [] => none
  | e :: rest =>
    match lastSuccessfulWrite id rest with
    | some w => some w
    | none => writeOf id e

/-- Whether some Create on `id` succeeded in a log. -/
def createSucceeded (id : String) (log : List (Op × Option Error)) : Bool :=
  log.any (fun e =>
    match e with
    | (Op.create item, none) => decide (item.ID = id)
    | _ => false)

/-- The stores reachable from an empty one by Create, Update and Delete. -/
def Reachable (db : InMemoryDB) : Prop :=
  ∃ (path : String) (auto : Bool) (ops : List Op),
    db = run { items := ItemMap.make, persistPath := path, autoSave := auto } ops

/-- The last record with identifier `id` in a decoded file, `none` when the
file has no record with that identifier. -/
def lastRecord (id : String) : List Item → Option Item
  | [] => none
  | r :: rest =>
    match lastRecord id rest with
    | some x => some x
    | none => if r.ID = id then some r else none

/-- The data-model invariant on a map: every entry has a non-empty key, and
the item stored under a key carries that key as its `ID`. (That no two entries
share a key is part of `ItemMap`.) -/
def WellKeyed (m : ItemMap) : Prop :=
  ∀ e ∈ m.entries, e.1 ≠ "" ∧ e.2.ID = e.1

/-! ## Construction, and calls with their goroutines -/

/-- How `NewPersistentDB` ends: it returns a store pointer (`none` for `nil`)
and an error (`none` for `nil`), or the panic of `LoadFromFile` goes through
it. -/
inductive NewResult where
  | returned (db : Option InMemoryDB) (err : Option Error)
  | panicked
deriving DecidableEq

/-- `NewPersistentDB`. `stat` is the error of `os.Stat` on a path, `none` when
the call succeeds, which the source takes to mean that the file exists. -/
def NewPersistentDB (decode : List Nat → Except Error (List (Option Item)))
    (stat : String → Option Error) (fs : FileSystem) (config : Config) : NewResult :=
  let db : InMemoryDB :=
    { items := ItemMap.make, persistPath := config.PersistPath, autoSave := config.AutoSave }
  match stat config.PersistPath with
  | none =>
    match LoadFromFile decode fs db config.PersistPath with
    | LoadResult.returned (some e) _ => NewResult.returned none (some e)
    | LoadResult.returned none db1 => NewResult.returned (some db1) none
    | LoadResult.panicked _ => NewResult.panicked
  | some _ => NewResult.returned (some db) none

/-- The keys of a map, in the order of the visit. -/
def ItemMap.keys (m : ItemMap) : List String := m.entries.map Prod.fst

/-- The goroutines a call started, run to their end one after the other: each
is `db.SaveToFile(path)` on the store as the call left it, and the value it
returns goes nowhere (`go f()` drops it). The result is the file system they
leave. -/
def runSpawned (encode : List Item → Except Error (List Nat)) (fs : FileSystem)
    (out : Outcome) : FileSystem :=
  out.spawned.foldl (fun f path => (SaveToFile encode f out.db path).2) fs

/-- One mutating call followed by the goroutines it started: what the caller
gets back, and the file system afterwards. -/
def Op.applyAndSave (encode : List Item → Except Error (List Nat)) (fs : FileSystem)
    (db : InMemoryDB) (op : Op) : Outcome × FileSystem :=
  (op.apply db, runSpawned encode fs (op.apply db))

/-! ## handlers/handlers.go -/

/-- Go `strings.Split(s, "/")` on the characters of `s`. -/
def splitSlash : List Char → List (List Char)
  | [] => [[]]
  | c :: cs =>
    if c = '/' then [] :: splitSlash cs
    else
      match splitSlash cs with
      | [] => [[c]]
      | p :: ps => (c :: p) :: ps

/-- `getIDFromURL`, applied to `r.URL.Path`. -/
def getIDFromURL (path : String) : String :=
  let parts := splitSlash path.toList
  if h : parts.length > 3 then String.mk (parts.get ⟨3, h⟩) else ""

/-- What a handler reads of a request: `r.URL.Path`, and what
`io.ReadAll(r.Body)` returns. -/
structure Request where
  path : String
  body : Except Error (List Nat)

/-- The values handed to `respondWithJSON`: a `map[string]string`, an item, a
slice of items, or a nil item pointer. -/
inductive Payload where
  | fields (entries : List (String × String))
  | item (i : Item)
  | items (l : List Item)
  | null
deriving DecidableEq

/-- The body of a response: the JSON text of a payload, or plain text. -/
inductive Body where
  | json (p : Payload)
  | text (s : String)
deriving DecidableEq

/-- The status code and the body written to the `http.ResponseWriter`. -/
structure Response where
  code : Nat
  body : Body
deriving DecidableEq

/-- Status codes of `net/http`. -/
def StatusOK : Nat := 200

/-- Status code `http.StatusCreated`. -/
def StatusCreated : Nat := 201

/-- Status code `http.StatusBadRequest`. -/
def StatusBadRequest : Nat := 400

/-- Status code `http.StatusNotFound`. -/
def StatusNotFound : Nat := 404

/-- Status code `http.StatusInternalServerError`. -/
def StatusInternalServerError : Nat := 500

/-- What the handlers take from outside the repository: the instant
`time.Now()` returns, `json.Unmarshal(body, &item)` on a zero item (the error,
or the item it filled), and whether `json.Marshal` accepts an item. -/
structure Library where
  now : Int
  unmarshal : List Nat → Except Error Item
  marshals : Item → Bool

/-- Whether `json.Marshal(payload)` succeeds. A `map[string]string` and a nil
pointer are always accepted. -/
def canMarshal (lib : Library) : Payload → Bool
  | Payload.fields _ => true
  | Payload.item i => lib.marshals i
  | Payload.items l => l.all lib.marshals
  | Payload.null => true

/-- `respondWithJSON`. -/
def respondWithJSON (lib : Library) (code : Nat) (payload : Payload) : Response :=
  if canMarshal lib payload then { code := code, body := Body.json payload }
  else { code := StatusInternalServerError, body := Body.text "Error encoding response" }

/-- `respondWithError`. -/
def respondWithError (lib : Library) (code : Nat) (message : String) : Response :=
  respondWithJSON lib code (Payload.fields [("error", message)])

/-- What a handler wrote: a response, or nothing because it panicked. -/
inductive Reply where
  | sent (r : Response)
  | panicked
deriving DecidableEq

/-- A served request: the reply, the store afterwards, and the paths of the
saves started in the background. -/
structure Served where
  reply : Reply
  db : InMemoryDB
  spawned : List String
deriving DecidableEq

/-- `GetItems`. -/
def GetItems (lib : Library) (db : InMemoryDB) (_ : Request) : Served :=
  match (GetAll db).2 with
  | some _ =>
      { reply := Reply.sent (respondWithError lib StatusInternalServerError
          "Error retrieving items"), db := db, spawned := [] }
  | none =>
      { reply := Reply.sent (respondWithJSON lib StatusOK (Payload.items (GetAll db).1)),
        db := db, spawned := [] }

/-- `GetItem`. -/
def GetItem (lib : Library) (db : InMemoryDB) (r : Request) : Served :=
  let id := getIDFromURL r.path
  if id = "" then
    { reply := Reply.sent (respondWithError lib StatusBadRequest "Invalid item ID"),
      db := db, spawned := [] }
  else
    match Get db id with
    | (_, some err) =>
        if err = Error.ErrNotFound then
          { reply := Reply.sent (respondWithError lib StatusNotFound "Item not found"),
            db := db, spawned := [] }
        else
          { reply := Reply.sent (respondWithError lib StatusInternalServerError
              "Error retrieving item"), db := db, spawned := [] }
    | (some item, none) =>
        { reply := Reply.sent (respondWithJSON lib StatusOK (Payload.item item)),
          db := db, spawned := [] }
    | (none, none) =>
        { reply := Reply.sent (respondWithJSON lib StatusOK Payload.null),
          db := db, spawned := [] }

/-- `CreateItem`. -/
def CreateItem (lib : Library) (db : InMemoryDB) (r : Request) : Served :=
  match r.body with
  | Except.error _ =>
      { reply := Reply.sent (respondWithError lib StatusBadRequest "Invalid request payload"),
        db := db, spawned := [] }
  | Except.ok body =>
    match lib.unmarshal body with
    | Except.error _ =>
        { reply := Reply.sent (respondWithError lib StatusBadRequest "Invalid request payload"),
          db := db, spawned := [] }
    | Except.ok parsed =>
        let item : Item := { parsed with CreatedAt := lib.now, UpdatedAt := lib.now }
        let out := Create db item
        match out.err with
        | some _ =>
            { reply := Reply.sent (respondWithError lib StatusInternalServerError
                "Error creating item"), db := out.db, spawned := out.spawned }
        | none =>
            { reply := Reply.sent (respondWithJSON lib StatusCreated (Payload.item item)),
              db := out.db, spawned := out.spawned }

/-- `UpdateItem`. -/
def UpdateItem (lib : Library) (db : InMemoryDB) (r : Request) : Served :=
  let id := getIDFromURL r.path
  if id = "" then
    { reply := Reply.sent (respondWithError lib StatusBadRequest "Invalid item ID"),
      db := db, spawned := [] }
  else
    match Get db id with
    | (_, some err) =>
        if err = Error.ErrNotFound then
          { reply := Reply.sent (respondWithError lib StatusNotFound "Item not found"),
            db := db, spawned := [] }
        else
          { reply := Reply.sent (respondWithError lib StatusInternalServerError
              "Error retrieving item"), db := db, spawned := [] }
    | (existingItem, none) =>
      match r.body with
      | Except.error _ =>
          { reply := Reply.sent (respondWithError lib StatusBadRequest
              "Invalid request payload"), db := db, spawned := [] }
      | Except.ok body =>
        match lib.unmarshal body with
        | Except.error _ =>
            { reply := Reply.sent (respondWithError lib StatusBadRequest
                "Invalid request payload"), db := db, spawned := [] }
        | Except.ok parsed =>
          match existingItem with
          | none => { reply := Reply.panicked, db := db, spawned := [] }
          | some existing =>
              let updatedItem : Item :=
                { parsed with ID := id, CreatedAt := existing.CreatedAt, UpdatedAt := lib.now }
              let out := Update db updatedItem
              match out.err with
              | some _ =>
                  { reply := Reply.sent (respondWithError lib StatusInternalServerError
                      "Error updating item"), db := out.db, spawned := out.spawned }
              | none =>
                  { reply := Reply.sent (respondWithJSON lib StatusOK
                      (Payload.item updatedItem)), db := out.db, spawned := out.spawned }

/-- `DeleteItem`. -/
def DeleteItem (lib : Library) (db : InMemoryDB) (r : Request) : Served :=
  let id := getIDFromURL r.path
  if id = "" then
    { reply := Reply.sent (respondWithError lib StatusBadRequest "Invalid item ID"),
      db := db, spawned := [] }
  else
    let out := Delete db id
    match out.err with
    | some err =>
        if err = Error.ErrNotFound then
          { reply := Reply.sent (respondWithError lib StatusNotFound "Item not found"),
            db := out.db, spawned := out.spawned }
        else
          { reply := Reply.sent (respondWithError lib StatusInternalServerError
              "Error deleting item"), db := out.db, spawned := out.spawned }
    | none =>
        { reply := Reply.sent (respondWithJSON lib StatusOK
            (Payload.fields [("result", "success")])), db := out.db, spawned := out.spawned }

/-! ## The order of the lock and file operations in `SaveToFile` -/

/-- The operations of `SaveToFile` that touch the lock or the file. -/
inductive Event where
  | RLock
  | RUnlock
  | copyItems (n : Nat)
  | osCreate (path : String) (failed : Bool)
  | encode (path : String) (failed : Bool)
  | close (path : String)
deriving DecidableEq, Repr

/-- Whether an event is an operation on the file: `os.Create`, the encoder
writing to the file, `file.Close`. -/
def Event.isFile : Event → Bool
  | Event.osCreate _ _ => true
  | Event.encode _ _ => true
  | Event.close _ => true
  | _ => false

/-- `InMemoryDB.SaveToFile`, statement by statement: `db.mutex.RLock()`, the
loop that copies the items, `os.Create`, the early return when it fails,
`encoder.Encode(items)`, and at the return the deferred calls, last deferred
first: `file.Close()` when it was deferred, then `db.mutex.RUnlock()`. -/
def SaveToFileEvents (encode : List Item → Except Error (List Nat)) (fs : FileSystem)
    (db : InMemoryDB) (filepath : String) : List Event :=
  let items := db.items.range
  [Event.RLock, Event.copyItems items.length] ++
    (match fs.createErr filepath with
     | some _ => [Event.osCreate filepath true]
     | none =>
       match encode items with
       | Except.error _ =>
           [Event.osCreate filepath false, Event.encode filepath true, Event.close filepath]
       | Except.ok _ =>
           [Event.osCreate filepath false, Event.encode filepath false, Event.close filepath])
    ++ [Event.RUnlock]

/-- Whether every file operation of a trace happens while the read lock is
held; `held` says whether the lock is held where the trace starts. -/
def fileEventsUnderLock : Bool → List Event → Bool
  | _, [] => true
  | _, Event.RLock :: rest => fileEventsUnderLock true rest
  | _, Event.RUnlock :: rest => fileEventsUnderLock false rest
  | held, e :: rest => (!e.isFile || held) && fileEventsUnderLock held rest

/-- Whether every file operation of a trace happens while the read lock is not
held: the lock was released before, or never taken. -/
def fileEventsOutsideLock : Bool → List Event → Bool
  | _, [] => true
  | _, Event.RLock :: rest => fileEventsOutsideLock true rest
  | _, Event.RUnlock :: rest => fileEventsOutsideLock false rest
  | held, e :: rest => (!e.isFile || !held) && fileEventsOutsideLock held rest

/-! ## The store with its pointers -/

namespace Ptr

/-- The records of type `models.Item` in memory: the record at each address,
`none` where there is none. -/
abbrev Heap := Nat → Option Item

/-- The map of `InMemoryDB` as the source has it, `map[string]*models.Item`:
each key with the address it holds. -/
structure DB where
  items : List (String × Nat)
deriving DecidableEq

/-- Go `p, exists := m[k]`. -/
def index : List (String × Nat) → String → Option Nat
  | [], _ => none
  | (k', p) :: rest, k => if k' = k then some p else index rest k

/-- Go `m[k] = p`. -/
def assign : List (String × Nat) → String → Nat → List (String × Nat)
  | [], k, p => [(k, p)]
  | (k', p') :: rest, k, p =>
      if k' = k then (k, p) :: rest else (k', p') :: assign rest k p

/-- `InMemoryDB.Get`: the pointer it returns is the one held by the map. -/
def Get (db : DB) (id : String) : Option Nat × Option Error :=
  if id = "" then (none, some Error.ErrInvalidID)
  else
    match index db.items id with
    | none => (none, some Error.ErrNotFound)
    | some p => (some p, none)

/-- `InMemoryDB.GetAll`: a new slice of the pointers held by the map. -/
def GetAll (db : DB) : List Nat × Option Error :=
  (db.items.map Prod.snd, none)

/-- `InMemoryDB.Create` on the pointer `item`; `none` is the panic of
`item.ID` on a pointer without record. The map keeps the pointer itself. -/
def Create (heap : Heap) (db : DB) (item : Nat) : Option (Option Error × DB) :=
  match heap item with
  | none => none
  | some record =>
    if record.ID = "" then some (some Error.ErrInvalidID, db)
    else
      match index db.items record.ID with
      | some _ => some (some (Error.New "item with this ID already exists"), db)
      | none => some (none, { items := assign db.items record.ID item })

/-- `InMemoryDB.Update` on the pointer `item`. -/
def Update (heap : Heap) (db : DB) (item : Nat) : Option (Option Error × DB) :=
  match heap item with
  | none => none
  | some record =>
    if record.ID = "" then some (some Error.ErrInvalidID, db)
    else
      match index db.items record.ID with
      | none => some (some Error.ErrNotFound, db)
      | some _ => some (none, { items := assign db.items record.ID item })

/-- A caller's assignment through a pointer, such as `item.Name = ...`: the
record at the address becomes `record`. -/
def write (heap : Heap) (p : Nat) (record : Item) : Heap :=
  fun q => if q = p then some record else heap q

/-- What the caller reads through the result of `Get`. -/
def deref (heap : Heap) (r : Option Nat × Option Error) : Option Item × Option Error :=
  (r.1.bind heap, r.2)

end Ptr

/-! ## Goroutines calling `Create` at the same time -/

/-- Where a goroutine stands in `Create`: before the test of `item.ID`, before
`db.mutex.Lock()`, holding the lock before the lookup, after a lookup that
found nothing and before `db.items[item.ID] = item`, with the result set and
the deferred `Unlock` still to run, and returned. -/
inductive Pc where
  | start
  | waiting
  | locked
  | absent
  | leaving (err : Option Error)
  | done (err : Option Error)
deriving DecidableEq

/-- The store as the goroutines share it: the map, the goroutine that holds
`db.mutex` for writing, the number of read locks held (by `Get`, `GetAll` or
a `SaveToFile` started in the background), and where each caller of `Create`
stands. -/
structure World where
  items : ItemMap
  writer : Option Nat
  readers : Nat
  pc : Nat → Pc

/-- What the scheduler can let happen next: the `i`-th caller of `Create`
takes its next step, some reader takes the read lock, some reader gives it
back. -/
inductive Action where
  | run (i : Nat)
  | readerIn
  | readerOut
deriving DecidableEq

/-- One step. `its` are the arguments of the callers of `Create`. `none` when
the action cannot happen: the goroutine is blocked at `Lock` or `RLock`, has
returned, or does not exist. -/
def step (its : List Item) (w : World) : Action → Option World
  | Action.readerIn =>
      if w.writer = none then some { w with readers := w.readers + 1 } else none
  | Action.readerOut =>
      if 0 < w.readers then some { w with readers := w.readers - 1 } else none
  | Action.run i =>
    match its[i]? with
    | none => none
    | some item =>
      match w.pc i with
      | Pc.start =>
          if item.ID = "" then
            some { w with pc := Function.update w.pc i (Pc.done (some Error.ErrInvalidID)) }
          else some { w with pc := Function.update w.pc i Pc.waiting }
      | Pc.waiting =>
          if w.writer = none ∧ w.readers = 0 then
            some { w with writer := some i, pc := Function.update w.pc i Pc.locked }
          else none
      | Pc.locked =>
          match w.items.index item.ID with
          | some _ =>
              some { w with
                pc := Function.update w.pc i
                  (Pc.leaving (some (Error.New "item with this ID already exists"))) }
          | none => some { w with pc := Function.update w.pc i Pc.absent }
      | Pc.absent =>
          some { w with
            items := w.items.assign item.ID item,
            pc := Function.update w.pc i (Pc.leaving none) }
      | Pc.leaving err =>
          some { w with writer := none, pc := Function.update w.pc i (Pc.done err) }
      | Pc.done _ => none

/-- A schedule, action by action; `none` when one of its actions cannot happen. -/
def exec (its : List Item) (w : World) : List Action → Option World
  | [] => some w
  | a :: rest =>
    match step its w a with
    | none => none
    | some w1 => exec its w1 rest

/-- The world in which nobody holds the lock and every caller is about to
enter `Create`. -/
def World.initial (db : InMemoryDB) : World :=
  { items := db.items, writer := none, readers := 0, pc := fun _ => Pc.start }

/-- Whether a goroutine is between `Lock` and `Unlock`. -/
def Pc.critical : Pc → Bool
  | Pc.locked => true
  | Pc.absent => true
  | Pc.leaving _ => true
  | _ => false

/-- Whether a goroutine has returned. -/
def Pc.returned : Pc → Bool
  | Pc.done _ => true
  | _ => false

/-- Whether all the callers have returned. -/
def allReturned (its : List Item) (w : World) : Prop :=
  ∀ i, i < its.length → (w.pc i).returned = true

/-- What holds of a caller at each point of `Create`, given its argument. -/
def pcInv (p : Pc) (m : ItemMap) (writer : Option Nat) (i : Nat) (item : Item) : Prop :=
  match p with
  | Pc.start => m.index item.ID = none ∧ writer ≠ some i
  | Pc.waiting => m.index item.ID = none ∧ writer ≠ some i
  | Pc.locked => m.index item.ID = none ∧ writer = some i
  | Pc.absent => m.index item.ID = none ∧ writer = some i
  | Pc.leaving err => err = none ∧ m.index item.ID = some item ∧ writer = some i
  | Pc.done err => err = none ∧ m.index item.ID = some item ∧ writer ≠ some i

/-- The invariant of the concurrent runs: every caller is where `pcInv` says,
the keys that no caller creates are as in the store the run started from, and
the lock is held by one of the callers or by nobody. -/
structure Inv (db : InMemoryDB) (its : List Item) (w : World) : Prop where
  calls : ∀ (i : Nat) (item : Item), its[i]? = some item → pcInv (w.pc i) w.items w.writer i item
  others : ∀ k : String, k ∉ its.map Item.ID → w.items.index k = db.items.index k
  holder : ∀ i : Nat, w.writer = some i → i < its.length

/-- The steps a caller still has to take. -/
def Pc.stepsLeft : Pc → Nat
  | Pc.start => 5
  | Pc.waiting => 4
  | Pc.locked => 3
  | Pc.absent => 2
  | Pc.leaving _ => 1
  | Pc.done _ => 0

/-- The steps left until every caller has returned and every read lock is
given back. -/
def remaining (its : List Item) (w : World) : Nat :=
  w.readers + ((List.range its.length).map (fun i => (w.pc i).stepsLeft)).sum

/-- The store of records that a store of pointers stands for: every key holds
a pointer to a record, and reading the pointers through the heap gives the
entries of `db`. -/
def Ptr.Reads (heap : Ptr.Heap) (pdb : Ptr.DB) (db : InMemoryDB) : Prop :=
  ∀ k : String,
    (Ptr.index pdb.items k).bind heap = db.items.index k
      ∧ (Ptr.index pdb.items k ≠ none → db.items.index k ≠ none)

/-! ## Slices, told apart from nil -/

/-- A Go slice of item pointers: `nil` is the nil slice (what
`var items []*models.Item` declares), `slice l` a non-nil slice with the
elements `l`, an empty one when `l` is empty. -/
inductive Slice where
  | nil
  | slice (elems : List Item)
deriving DecidableEq, Repr

/-- Go `make([]*models.Item, 0, capacity)`: a non-nil slice of length 0. -/
def Slice.make (_ : Nat) : Slice := Slice.slice []

/-- Go `append(s, x)`. -/
def Slice.append : Slice → Item → Slice
  | Slice.nil, x => Slice.slice [x]
  | Slice.slice l, x => Slice.slice (l ++ [x])

/-- `InMemoryDB.GetAll`, with the slice it returns told apart from nil: the
slice is made by `make(..., 0, len(db.items))` and grown by `append` while
ranging over the map. -/
def GetAllSlice (db : InMemoryDB) : Slice × Option Error :=
  (db.items.range.foldl Slice.append (Slice.make db.items.len), none)

/-! ## Lemmas on the map -/

theorem lookupIn_assignIn_self (l : List (String × Item)) (k : String) (v : Item) :
    lookupIn (assignIn l k v) k = some v := by
  induction l with
  | nil => simp [assignIn, lookupIn]
  | cons e rest ih =>
    obtain ⟨k', v'⟩ := e
    by_cases h : k' = k
    · simp [assignIn, lookupIn, h]
    · simp [assignIn, lookupIn, h, ih]

theorem lookupIn_assignIn_ne (l : List (String × Item)) (k x : String) (v : Item)
    (hx : x ≠ k) : lookupIn (assignIn l k v) x = lookupIn l x := by
  induction l with
  | nil => simp [assignIn, lookupIn, Ne.symm hx]
  | cons e rest ih =>
    obtain ⟨k', v'⟩ := e
    by_cases h : k' = k
    · subst h
      simp [assignIn, lookupIn, Ne.symm hx]
    · simp [assignIn, lookupIn, h, ih]

theorem deleteIn_cons (k' : String) (v' : Item) (rest : List (String × Item)) (k : String) :
    deleteIn ((k', v') :: rest) k =
      if k' = k then deleteIn rest k else (k', v') :: deleteIn rest k := by
  by_cases h : k' = k <;> simp [deleteIn, List.filter_cons, h]

theorem lookupIn_deleteIn_self (l : List (String × Item)) (k : String) :
    lookupIn (deleteIn l k) k = none := by
  induction l with
  | nil => rfl
  | cons e rest ih =>
    obtain ⟨k', v'⟩ := e
    rw [deleteIn_cons]
    by_cases h : k' = k
    · rw [if_pos h]; exact ih
    · rw [if_neg h]; simp only [lookupIn, if_neg h]; exact ih

theorem lookupIn_deleteIn_ne (l : List (String × Item)) (k x : String) (hx : x ≠ k) :
    lookupIn (deleteIn l k) x = lookupIn l x := by
  induction l with
  | nil => rfl
  | cons e rest ih =>
    obtain ⟨k', v'⟩ := e
    rw [deleteIn_cons]
    by_cases h : k' = k
    · have hk : ¬ k' = x := fun e => hx (e.symm.trans h)
      rw [if_pos h]; simp only [lookupIn, if_neg hk]; exact ih
    · rw [if_neg h]; simp only [lookupIn, ih]

theorem ItemMap.index_make (k : String) : ItemMap.make.index k = none := rfl

theorem ItemMap.index_assign_self (m : ItemMap) (k : String) (v : Item) :
    (m.assign k v).index k = some v :=
  lookupIn_assignIn_self m.entries k v

theorem ItemMap.index_assign_ne (m : ItemMap) (k x : String) (v : Item) (hx : x ≠ k) :
    (m.assign k v).index x = m.index x :=
  lookupIn_assignIn_ne m.entries k x v hx

theorem ItemMap.index_delete_self (m : ItemMap) (k : String) :
    (m.delete k).index k = none :=
  lookupIn_deleteIn_self m.entries k

theorem ItemMap.index_delete_ne (m : ItemMap) (k x : String) (hx : x ≠ k) :
    (m.delete k).index x = m.index x :=
  lookupIn_deleteIn_ne m.entries k x hx

theorem ItemMap.ext_entries {a b : ItemMap} (h : a.entries = b.entries) : a = b := by
  cases a; cases b; cases h; rfl

/-! ## One call at a time -/

theorem Get_of_index (db : InMemoryDB) (id : String) (hid : id ≠ "") :
    Get db id =
      (match db.items.index id with
       | some item => (some item, none)
       | none => (none, some Error.ErrNotFound)) := by
  unfold Get
  rw [if_neg hid]
  cases db.items.index id <;> rfl

theorem Create_fresh (db : InMemoryDB) (item : Item) (hid : item.ID ≠ "")
    (hfresh : db.items.index item.ID = none) :
    Create db item =
      { err := none
        db := { db with items := db.items.assign item.ID item }
        spawned := autoSaveGo { db with items := db.items.assign item.ID item } } := by
  unfold Create
  rw [if_neg hid, hfresh]

theorem Create_taken (db : InMemoryDB) (item old : Item) (hid : item.ID ≠ "")
    (htaken : db.items.index item.ID = some old) :
    Create db item =
      { err := some (Error.New "item with this ID already exists"), db := db, spawned := [] } := by
  unfold Create
  rw [if_neg hid, htaken]

theorem Update_absent (db : InMemoryDB) (item : Item) (hid : item.ID ≠ "")
    (habsent : db.items.index item.ID = none) :
    Update db item = { err := some Error.ErrNotFound, db := db, spawned := [] } := by
  unfold Update
  rw [if_neg hid, habsent]

theorem Update_present (db : InMemoryDB) (item old : Item) (hid : item.ID ≠ "")
    (hpresent : db.items.index item.ID = some old) :
    Update db item =
      { err := none
        db := { db with items := db.items.assign item.ID item }
        spawned := autoSaveGo { db with items := db.items.assign item.ID item } } := by
  unfold Update
  rw [if_neg hid, hpresent]

theorem Delete_absent (db : InMemoryDB) (id : String) (hid : id ≠ "")
    (habsent : db.items.index id = none) :
    Delete db id = { err := some Error.ErrNotFound, db := db, spawned := [] } := by
  unfold Delete
  rw [if_neg hid, habsent]

theorem Delete_present (db : InMemoryDB) (id : String) (old : Item) (hid : id ≠ "")
    (hpresent : db.items.index id = some old) :
    Delete db id =
      { err := none
        db := { db with items := db.items.delete id }
        spawned := autoSaveGo { db with items := db.items.delete id } } := by
  unfold Delete
  rw [if_neg hid, hpresent]

theorem Create_empty_id (db : InMemoryDB) (item : Item) (h : item.ID = "") :
    Create db item = { err := some Error.ErrInvalidID, db := db, spawned := [] } := by
  unfold Create
  rw [if_pos h]

theorem Update_empty_id (db : InMemoryDB) (item : Item) (h : item.ID = "") :
    Update db item = { err := some Error.ErrInvalidID, db := db, spawned := [] } := by
  unfold Update
  rw [if_pos h]

theorem Delete_empty_id (db : InMemoryDB) :
    Delete db "" = { err := some Error.ErrInvalidID, db := db, spawned := [] } := by
  unfold Delete
  rw [if_pos rfl]

/-! ## Sequences of calls -/

/-- One call changes the entry of `id` exactly as its log line says. -/
theorem index_apply (db : InMemoryDB) (op : Op) (id : String) :
    (op.apply db).db.items.index id =
      (match writeOf id (op, (op.apply db).err) with
       | some w => w
       | none => db.items.index id) := by
  cases op with
  | create item =>
    simp only [Op.apply]
    by_cases h0 : item.ID = ""
    · rw [Create_empty_id db item h0]; rfl
    · cases hlook : db.items.index item.ID with
      | some old => rw [Create_taken db item old h0 hlook]; rfl
      | none =>
        rw [Create_fresh db item h0 hlook]
        by_cases hk : item.ID = id
        · subst hk
          simp [writeOf, ItemMap.index_assign_self]
        · simp [writeOf, hk, ItemMap.index_assign_ne _ _ _ _ (Ne.symm hk)]
  | update item =>
    simp only [Op.apply]
    by_cases h0 : item.ID = ""
    · rw [Update_empty_id db item h0]; rfl
    · cases hlook : db.items.index item.ID with
      | none => rw [Update_absent db item h0 hlook]; rfl
      | some old =>
        rw [Update_present db item old h0 hlook]
        by_cases hk : item.ID = id
        · subst hk
          simp [writeOf, ItemMap.index_assign_self]
        · simp [writeOf, hk, ItemMap.index_assign_ne _ _ _ _ (Ne.symm hk)]
  | delete id' =>
    simp only [Op.apply]
    by_cases h0 : id' = ""
    · subst h0; rw [Delete_empty_id db]; rfl
    · cases hlook : db.items.index id' with
      | none => rw [Delete_absent db id' h0 hlook]; rfl
      | some old =>
        rw [Delete_present db id' old h0 hlook]
        by_cases hk : id' = id
        · subst hk
          simp [writeOf, ItemMap.index_delete_self]
        · simp [writeOf, hk, ItemMap.index_delete_ne _ _ _ (Ne.symm hk)]

/-- After a run, the entry of `id` is what the last successful operation on
`id` wrote, or what the run started with when there was none. -/
theorem index_run (ops : List Op) (db : InMemoryDB) (id : String) :
    (run db ops).items.index id =
      (match lastSuccessfulWrite id (history db ops) with
       | some w => w
       | none => db.items.index id) := by
  induction ops generalizing db with
  | nil => rfl
  | cons op ops ih =>
    simp only [run, history, lastSuccessfulWrite]
    rw [ih (op.apply db).db]
    cases lastSuccessfulWrite id (history (op.apply db).db ops) with
    | some w => rfl
    | none => exact index_apply db op id

/-- An id that is absent stays absent as long as no Create on it succeeds. -/
theorem index_run_of_no_create (ops : List Op) (db : InMemoryDB) (id : String)
    (habsent : db.items.index id = none)
    (hnone : createSucceeded id (history db ops) = false) :
    (run db ops).items.index id = none := by
  induction ops generalizing db with
  | nil => exact habsent
  | cons op ops ih =>
    simp only [createSucceeded, history, List.any_cons, Bool.or_eq_false_iff] at hnone
    simp only [run]
    refine ih (op.apply db).db ?_ hnone.2
    rw [index_apply]
    cases op with
    | create item =>
      cases herr : (Op.apply db (Op.create item)).err with
      | some e => simpa [writeOf] using habsent
      | none =>
        have h1 := hnone.1
        rw [herr] at h1
        have hk : ¬ item.ID = id := by simpa using h1
        simpa [writeOf, hk] using habsent
    | update item =>
      cases herr : (Op.apply db (Op.update item)).err with
      | some e => simpa [writeOf] using habsent
      | none =>
        by_cases hk : item.ID = id
        · exfalso
          subst hk
          simp only [Op.apply] at herr
          by_cases h0 : item.ID = ""
          · rw [Update_empty_id db item h0] at herr; cases herr
          · rw [Update_absent db item h0 habsent] at herr; cases herr
        · simpa [writeOf, hk] using habsent
    | delete id' =>
      cases herr : (Op.apply db (Op.delete id')).err with
      | some e => simpa [writeOf] using habsent
      | none =>
        by_cases hk : id' = id
        · simp [writeOf, hk]
        · simpa [writeOf, hk] using habsent

/-! ## The invariant along a run -/

theorem mem_assignIn (l : List (String × Item)) (k : String) (v : Item) (e : String × Item)
    (he : e ∈ assignIn l k v) : e ∈ l ∨ e = (k, v) := by
  induction l with
  | nil => simpa [assignIn] using he
  | cons e0 rest ih =>
    obtain ⟨k', v'⟩ := e0
    by_cases h : k' = k
    · simp only [assignIn, if_pos h, List.mem_cons] at he
      rcases he with he | he
      · exact Or.inr he
      · exact Or.inl (List.mem_cons_of_mem _ he)
    · simp only [assignIn, if_neg h, List.mem_cons] at he
      rcases he with he | he
      · exact Or.inl (he ▸ List.mem_cons_self _ _)
      · exact (ih he).imp (List.mem_cons_of_mem _) id

theorem mem_deleteIn (l : List (String × Item)) (k : String) (e : String × Item)
    (he : e ∈ deleteIn l k) : e ∈ l :=
  (List.mem_filter.mp he).1

theorem WellKeyed_make : WellKeyed ItemMap.make := by
  intro e he
  cases he

theorem WellKeyed_assign (m : ItemMap) (item : Item) (hm : WellKeyed m) (hid : item.ID ≠ "") :
    WellKeyed (m.assign item.ID item) := by
  intro e he
  rcases mem_assignIn m.entries item.ID item e he with h | h
  · exact hm e h
  · subst h
    exact ⟨hid, rfl⟩

theorem WellKeyed_delete (m : ItemMap) (k : String) (hm : WellKeyed m) :
    WellKeyed (m.delete k) :=
  fun e he => hm e (mem_deleteIn m.entries k e he)

theorem WellKeyed_apply (db : InMemoryDB) (op : Op) (hm : WellKeyed db.items) :
    WellKeyed (op.apply db).db.items := by
  cases op with
  | create item =>
    simp only [Op.apply]
    by_cases h0 : item.ID = ""
    · rw [Create_empty_id db item h0]; exact hm
    · cases hlook : db.items.index item.ID with
      | some old => rw [Create_taken db item old h0 hlook]; exact hm
      | none => rw [Create_fresh db item h0 hlook]; exact WellKeyed_assign _ _ hm h0
  | update item =>
    simp only [Op.apply]
    by_cases h0 : item.ID = ""
    · rw [Update_empty_id db item h0]; exact hm
    · cases hlook : db.items.index item.ID with
      | none => rw [Update_absent db item h0 hlook]; exact hm
      | some old => rw [Update_present db item old h0 hlook]; exact WellKeyed_assign _ _ hm h0
  | delete id =>
    simp only [Op.apply]
    by_cases h0 : id = ""
    · subst h0; rw [Delete_empty_id db]; exact hm
    · cases hlook : db.items.index id with
      | none => rw [Delete_absent db id h0 hlook]; exact hm
      | some old => rw [Delete_present db id old h0 hlook]; exact WellKeyed_delete _ _ hm

theorem WellKeyed_run (ops : List Op) (db : InMemoryDB) (hm : WellKeyed db.items) :
    WellKeyed (run db ops).items := by
  induction ops generalizing db with
  | nil => exact hm
  | cons op ops ih => exact ih _ (WellKeyed_apply db op hm)

theorem WellKeyed_of_Reachable (db : InMemoryDB) (h : Reachable db) : WellKeyed db.items := by
  obtain ⟨path, auto, ops, rfl⟩ := h
  exact WellKeyed_run ops _ WellKeyed_make

/-- In a well-keyed map the entries can be rebuilt from the values. -/
theorem entries_of_WellKeyed (m : ItemMap) (hm : WellKeyed m) :
    m.entries = m.range.map (fun r => (r.ID, r)) := by
  unfold ItemMap.range
  rw [List.map_map]
  conv_lhs => rw [← List.map_id m.entries]
  apply List.map_congr_left
  intro e he
  obtain ⟨k, v⟩ := e
  have h := (hm (k, v) he).2
  simp only [Function.comp, id] at h ⊢
  rw [h]

/-! ## The loading loop -/

theorem assignIn_of_not_mem (l : List (String × Item)) (k : String) (v : Item)
    (hk : k ∉ l.map Prod.fst) : assignIn l k v = l ++ [(k, v)] := by
  induction l with
  | nil => rfl
  | cons e rest ih =>
    obtain ⟨k', v'⟩ := e
    simp only [List.map_cons, List.mem_cons, not_or] at hk
    simp only [assignIn, if_neg (Ne.symm hk.1), ih hk.2, List.cons_append]

theorem loadItems_some (records : List Item) (m : ItemMap) :
    loadItems m (records.map some)
      = Except.ok (records.foldl (fun acc r => acc.assign r.ID r) m) := by
  induction records generalizing m with
  | nil => rfl
  | cons r rest ih => simp only [List.map_cons, loadItems, List.foldl_cons, ih]

/-- Loading records with pairwise distinct identifiers, none of them a key of
the map, adds them at the end in file order. -/
theorem entries_foldl_assign (records : List Item) (m : ItemMap)
    (hnodup : (m.entries.map Prod.fst ++ records.map Item.ID).Nodup) :
    (records.foldl (fun acc r => acc.assign r.ID r) m).entries
      = m.entries ++ records.map (fun r => (r.ID, r)) := by
  induction records generalizing m with
  | nil => simp
  | cons r rest ih =>
    have hr : r.ID ∉ m.entries.map Prod.fst := by
      intro hmem
      have := (List.nodup_append.mp hnodup).2.2
      exact this hmem (List.mem_cons_self _ _)
    have hstep : (m.assign r.ID r).entries = m.entries ++ [(r.ID, r)] :=
      assignIn_of_not_mem m.entries r.ID r hr
    rw [List.foldl_cons, ih]
    · rw [hstep]; simp
    · rw [hstep]
      simpa [List.map_append] using hnodup

/-- After the loop, the entry of `id` is the last record of the file with that
identifier, or the entry the map had before the loop. -/
theorem index_foldl_assign (records : List Item) (m : ItemMap) (id : String) :
    (records.foldl (fun acc r => acc.assign r.ID r) m).index id
      = (match lastRecord id records with
         | some x => some x
         | none => m.index id) := by
  induction records generalizing m with
  | nil => rfl
  | cons r rest ih =>
    rw [List.foldl_cons, ih]
    simp only [lastRecord]
    cases lastRecord id rest with
    | some x => rfl
    | none =>
      by_cases hk : r.ID = id
      · subst hk
        simp [ItemMap.index_assign_self]
      · simp [hk, ItemMap.index_assign_ne _ _ _ _ (Ne.symm hk)]

/-! ## Ranging over the map -/

theorem lookupIn_of_mem (l : List (String × Item)) (k : String) (v : Item)
    (hnodup : (l.map Prod.fst).Nodup) (hmem : (k, v) ∈ l) : lookupIn l k = some v := by
  induction l with
  | nil => cases hmem
  | cons e rest ih =>
    obtain ⟨k', v'⟩ := e
    simp only [List.map_cons, List.nodup_cons] at hnodup
    rcases List.mem_cons.mp hmem with h | h
    · cases h
      simp [lookupIn]
    · have hne : ¬ k' = k := by
        intro hk
        subst hk
        exact hnodup.1 (List.mem_map_of_mem Prod.fst h)
      simp only [lookupIn, if_neg hne]
      exact ih hnodup.2 h

theorem lookupIn_ne_none_iff (l : List (String × Item)) (k : String) :
    lookupIn l k ≠ none ↔ k ∈ l.map Prod.fst := by
  induction l with
  | nil => simp [lookupIn]
  | cons e rest ih =>
    obtain ⟨k', v'⟩ := e
    by_cases h : k' = k
    · simp [lookupIn, h]
    · simp only [lookupIn, if_neg h, ih, List.map_cons, List.mem_cons]
      constructor
      · exact Or.inr
      · rintro (hk | hk)
        · exact absurd hk.symm h
        · exact hk

/-- Ranging over the map meets, key by key, the value stored under the key. -/
theorem range_eq_keys_index (m : ItemMap) :
    m.range.map some = m.keys.map m.index := by
  unfold ItemMap.range ItemMap.keys
  rw [List.map_map, List.map_map]
  apply List.map_congr_left
  intro e he
  obtain ⟨k, v⟩ := e
  exact (lookupIn_of_mem m.entries k v m.nodup he).symm

/-! ## The persistence settings do not reach the result of a call -/

theorem apply_items_congr (db1 db2 : InMemoryDB) (op : Op) (h : db1.items = db2.items) :
    (op.apply db1).err = (op.apply db2).err
      ∧ (op.apply db1).db.items = (op.apply db2).db.items := by
  cases op with
  | create item =>
    simp only [Op.apply]
    by_cases h0 : item.ID = ""
    · rw [Create_empty_id db1 item h0, Create_empty_id db2 item h0]; exact ⟨rfl, h⟩
    · cases hlook : db1.items.index item.ID with
      | some old =>
        rw [Create_taken db1 item old h0 hlook, Create_taken db2 item old h0 (h ▸ hlook)]
        exact ⟨rfl, h⟩
      | none =>
        rw [Create_fresh db1 item h0 hlook, Create_fresh db2 item h0 (h ▸ hlook)]
        exact ⟨rfl, by simp only [h]⟩
  | update item =>
    simp only [Op.apply]
    by_cases h0 : item.ID = ""
    · rw [Update_empty_id db1 item h0, Update_empty_id db2 item h0]; exact ⟨rfl, h⟩
    · cases hlook : db1.items.index item.ID with
      | none =>
        rw [Update_absent db1 item h0 hlook, Update_absent db2 item h0 (h ▸ hlook)]
        exact ⟨rfl, h⟩
      | some old =>
        rw [Update_present db1 item old h0 hlook, Update_present db2 item old h0 (h ▸ hlook)]
        exact ⟨rfl, by simp only [h]⟩
  | delete id =>
    simp only [Op.apply]
    by_cases h0 : id = ""
    · subst h0
      rw [Delete_empty_id db1, Delete_empty_id db2]; exact ⟨rfl, h⟩
    · cases hlook : db1.items.index id with
      | none =>
        rw [Delete_absent db1 id h0 hlook, Delete_absent db2 id h0 (h ▸ hlook)]
        exact ⟨rfl, h⟩
      | some old =>
        rw [Delete_present db1 id old h0 hlook, Delete_present db2 id old h0 (h ▸ hlook)]
        exact ⟨rfl, by simp only [h]⟩

/-! ## The path of a request -/

theorem splitSlash_no_slash (l : List Char) (h : '/' ∉ l) : splitSlash l = [l] := by
  induction l with
  | nil => rfl
  | cons c cs ih =>
    simp only [List.mem_cons, not_or] at h
    simp only [splitSlash, if_neg (Ne.symm h.1), ih h.2]

theorem splitSlash_append_slash (a rest : List Char) (h : '/' ∉ a) :
    splitSlash (a ++ '/' :: rest) = a :: splitSlash rest := by
  induction a with
  | nil => simp [splitSlash]
  | cons c cs ih =>
    simp only [List.mem_cons, not_or] at h
    rw [List.cons_append]
    simp only [splitSlash, if_neg (Ne.symm h.1)]
    rw [ih h.2]

theorem getIDFromURL_of_split (path : String) (parts : List (List Char))
    (h : splitSlash path.toList = parts) :
    getIDFromURL path
      = if h3 : parts.length > 3 then String.mk (parts.get ⟨3, h3⟩) else "" := by
  subst h
  rfl

theorem getIDFromURL_items (id : String) (hslash : '/' ∉ id.toList) :
    getIDFromURL ("/api/items/" ++ id) = id := by
  have h0 : ("/api/items/" ++ id).toList
      = [] ++ '/' :: (['a', 'p', 'i'] ++ '/' ::
          (['i', 't', 'e', 'm', 's'] ++ '/' :: id.toList)) := by
    rw [String.toList, String.data_append]
    rfl
  have h1 : splitSlash ("/api/items/" ++ id).toList
      = [[], ['a', 'p', 'i'], ['i', 't', 'e', 'm', 's'], id.toList] := by
    rw [h0, splitSlash_append_slash _ _ (by simp), splitSlash_append_slash _ _ (by decide),
      splitSlash_append_slash _ _ (by decide), splitSlash_no_slash _ hslash]
  rw [getIDFromURL_of_split _ _ h1]
  rfl

theorem getIDFromURL_short (path : String) (h : (splitSlash path.toList).length ≤ 3) :
    getIDFromURL path = "" := by
  unfold getIDFromURL
  simp only [gt_iff_lt, dif_neg (Nat.not_lt.mpr h)]

/-! ## The handlers on a request without id -/

theorem GetItem_no_id (lib : Library) (db : InMemoryDB) (r : Request)
    (h : getIDFromURL r.path = "") :
    GetItem lib db r =
      { reply := Reply.sent (respondWithError lib StatusBadRequest "Invalid item ID"),
        db := db, spawned := [] } := by
  simp only [GetItem, h, if_true]

theorem UpdateItem_no_id (lib : Library) (db : InMemoryDB) (r : Request)
    (h : getIDFromURL r.path = "") :
    UpdateItem lib db r =
      { reply := Reply.sent (respondWithError lib StatusBadRequest "Invalid item ID"),
        db := db, spawned := [] } := by
  simp only [UpdateItem, h, if_true]

theorem DeleteItem_no_id (lib : Library) (db : InMemoryDB) (r : Request)
    (h : getIDFromURL r.path = "") :
    DeleteItem lib db r =
      { reply := Reply.sent (respondWithError lib StatusBadRequest "Invalid item ID"),
        db := db, spawned := [] } := by
  simp only [DeleteItem, h, if_true]

theorem respondWithError_eq (lib : Library) (code : Nat) (message : String) :
    respondWithError lib code message
      = { code := code, body := Body.json (Payload.fields [("error", message)]) } := by
  simp [respondWithError, respondWithJSON, canMarshal]

/-! ## Pointers held by the map -/

theorem Ptr.index_after_assign (l : List (String × Nat)) (k : String) (p : Nat) :
    Ptr.index (Ptr.assign l k p) k = some p := by
  induction l with
  | nil => simp [Ptr.assign, Ptr.index]
  | cons e rest ih =>
    obtain ⟨k', p'⟩ := e
    by_cases h : k' = k
    · simp [Ptr.assign, Ptr.index, h]
    · simp [Ptr.assign, Ptr.index, h, ih]

theorem Ptr.mem_of_index (l : List (String × Nat)) (k : String) (p : Nat)
    (h : Ptr.index l k = some p) : p ∈ l.map Prod.snd := by
  induction l with
  | nil => cases h
  | cons e rest ih =>
    obtain ⟨k', p'⟩ := e
    by_cases hk : k' = k
    · simp only [Ptr.index, if_pos hk, Option.some.injEq] at h
      simp [h]
    · simp only [Ptr.index, if_neg hk] at h
      exact List.mem_cons_of_mem _ (ih h)

theorem Ptr.Get_of_held_pointer (db : Ptr.DB) (id : String) (p : Nat) (hid : id ≠ "")
    (h : Ptr.index db.items id = some p) : Ptr.Get db id = (some p, none) := by
  simp only [Ptr.Get, if_neg hid, h]

theorem Ptr.index_of_Get (db : Ptr.DB) (id : String) (p : Nat)
    (h : Ptr.Get db id = (some p, none)) : Ptr.index db.items id = some p := by
  unfold Ptr.Get at h
  by_cases hid : id = ""
  · rw [if_pos hid] at h; cases h
  · rw [if_neg hid] at h
    cases hlook : Ptr.index db.items id with
    | none => rw [hlook] at h; cases h
    | some q => rw [hlook] at h; cases h; rfl

/-! ## The invariant of the concurrent runs -/

theorem ids_injective (its : List Item) (hnodup : (its.map Item.ID).Nodup)
    (i j : Nat) (a b : Item) (hi : its[i]? = some a) (hj : its[j]? = some b)
    (hid : a.ID = b.ID) : i = j := by
  have hi' : (its.map Item.ID)[i]? = some a.ID := by simp [hi]
  have hj' : (its.map Item.ID)[j]? = some a.ID := by simp [hj, hid]
  obtain ⟨hil, hie⟩ := List.getElem?_eq_some_iff.mp hi'
  obtain ⟨hjl, hje⟩ := List.getElem?_eq_some_iff.mp hj'
  exact (List.Nodup.getElem_inj_iff hnodup).mp (hie.trans hje.symm)

theorem mem_of_getElem? (its : List Item) (i : Nat) (item : Item)
    (h : its[i]? = some item) :
    item.ID ∈ its.map Item.ID ∧ item ∈ its ∧ i < its.length := by
  obtain ⟨hl, he⟩ := List.getElem?_eq_some_iff.mp h
  have hm : item ∈ its := he ▸ List.getElem_mem hl
  exact ⟨List.mem_map_of_mem _ hm, hm, hl⟩

/-- A step of another goroutine that leaves the entry of this one alone, and
neither gives it the lock nor takes it away, keeps what holds of this one. -/
theorem pcInv_other (p : Pc) (m m' : ItemMap) (wr wr' : Option Nat) (j : Nat) (item : Item)
    (h : pcInv p m wr j item) (hidx : m'.index item.ID = m.index item.ID)
    (hwr : wr = some j ↔ wr' = some j) : pcInv p m' wr' j item := by
  cases p with
  | start => exact ⟨hidx.trans h.1, fun e => h.2 (hwr.mpr e)⟩
  | waiting => exact ⟨hidx.trans h.1, fun e => h.2 (hwr.mpr e)⟩
  | locked => exact ⟨hidx.trans h.1, hwr.mp h.2⟩
  | absent => exact ⟨hidx.trans h.1, hwr.mp h.2⟩
  | leaving err => exact ⟨h.1, hidx.trans h.2.1, hwr.mp h.2.2⟩
  | done err => exact ⟨h.1, hidx.trans h.2.1, fun e => h.2.2 (hwr.mpr e)⟩

/-- The invariant after a step of the goroutine `i` that touches at most the
entry of its own item. -/
theorem Inv_update (db : InMemoryDB) (its : List Item) (hnodup : (its.map Item.ID).Nodup)
    (w : World) (i : Nat) (item : Item) (p' : Pc) (m' : ItemMap) (wr' : Option Nat)
    (hinv : Inv db its w) (hitem : its[i]? = some item)
    (hself : pcInv p' m' wr' i item)
    (hidx : ∀ k : String, k ≠ item.ID → m'.index k = w.items.index k)
    (hwr : ∀ j : Nat, j ≠ i → (w.writer = some j ↔ wr' = some j))
    (hholder : ∀ j : Nat, wr' = some j → j < its.length) :
    Inv db its
      { items := m', writer := wr', readers := w.readers, pc := Function.update w.pc i p' } := by
  refine ⟨?_, ?_, hholder⟩
  · intro j b hb
    by_cases hji : j = i
    · subst hji
      have hbi : b = item := Option.some.inj (hb.symm.trans hitem)
      subst hbi
      simpa using hself
    · have hne : b.ID ≠ item.ID := fun e => hji (ids_injective its hnodup j i b item hb hitem e)
      simp only [Function.update_noteq hji]
      exact pcInv_other _ _ _ _ _ _ _ (hinv.calls j b hb) (hidx _ hne) (hwr j hji)
  · intro k hk
    have hne : k ≠ item.ID := fun e => hk (e ▸ (mem_of_getElem? its i item hitem).1)
    exact (hidx k hne).trans (hinv.others k hk)

theorem Inv_initial (db : InMemoryDB) (its : List Item)
    (hfresh : ∀ it ∈ its, db.items.index it.ID = none) : Inv db its (World.initial db) := by
  refine ⟨?_, fun _ _ => rfl, fun i h => by cases h⟩
  intro i item hitem
  exact ⟨hfresh item (mem_of_getElem? its i item hitem).2.1, fun h => by cases h⟩

theorem Inv_step (db : InMemoryDB) (its : List Item) (hnodup : (its.map Item.ID).Nodup)
    (hnonempty : ∀ it ∈ its, it.ID ≠ "") (w w' : World) (a : Action)
    (hinv : Inv db its w) (hstep : step its w a = some w') : Inv db its w' := by
  cases a with
  | readerIn =>
    simp only [step] at hstep
    split at hstep
    · cases hstep; exact ⟨hinv.calls, hinv.others, hinv.holder⟩
    · cases hstep
  | readerOut =>
    simp only [step] at hstep
    split at hstep
    · cases hstep; exact ⟨hinv.calls, hinv.others, hinv.holder⟩
    · cases hstep
  | run i =>
    simp only [step] at hstep
    cases hitem : its[i]? with
    | none => rw [hitem] at hstep; cases hstep
    | some item =>
      rw [hitem] at hstep
      have hme := hinv.calls i item hitem
      have hlen := (mem_of_getElem? its i item hitem).2.2
      have hid : item.ID ≠ "" := hnonempty item (mem_of_getElem? its i item hitem).2.1
      cases hpc : w.pc i with
      | start =>
        rw [hpc] at hme
        simp only [hpc, if_neg hid] at hstep
        cases hstep
        exact Inv_update db its hnodup w i item Pc.waiting w.items w.writer hinv hitem
          hme (fun _ _ => rfl) (fun _ _ => Iff.rfl) hinv.holder
      | waiting =>
        rw [hpc] at hme
        simp only [hpc] at hstep
        split at hstep
        · rename_i hfree
          cases hstep
          refine Inv_update db its hnodup w i item Pc.locked w.items (some i) hinv hitem
            ⟨hme.1, rfl⟩ (fun _ _ => rfl) ?_ ?_
          · intro j hji
            rw [hfree.1]
            constructor
            · intro h; cases h
            · intro h; exact absurd (Option.some.inj h).symm hji
          · intro j hj
            cases hj
            exact hlen
        · cases hstep
      | locked =>
        rw [hpc] at hme
        simp only [hpc, hme.1] at hstep
        cases hstep
        exact Inv_update db its hnodup w i item Pc.absent w.items w.writer hinv hitem
          hme (fun _ _ => rfl) (fun _ _ => Iff.rfl) hinv.holder
      | absent =>
        rw [hpc] at hme
        simp only [hpc] at hstep
        cases hstep
        exact Inv_update db its hnodup w i item (Pc.leaving none)
          (w.items.assign item.ID item) w.writer hinv hitem
          ⟨rfl, ItemMap.index_assign_self _ _ _, hme.2⟩
          (fun k hk => ItemMap.index_assign_ne _ _ _ _ hk) (fun _ _ => Iff.rfl) hinv.holder
      | leaving err =>
        rw [hpc] at hme
        simp only [hpc] at hstep
        cases hstep
        refine Inv_update db its hnodup w i item (Pc.done err) w.items none hinv hitem
          ⟨hme.1, hme.2.1, fun h => by cases h⟩ (fun _ _ => rfl) ?_ (fun j h => by cases h)
        intro j hji
        rw [hme.2.2]
        constructor
        · intro h; exact absurd (Option.some.inj h).symm hji
        · intro h; cases h
      | done err =>
        simp only [hpc] at hstep
        cases hstep

theorem Inv_exec (db : InMemoryDB) (its : List Item) (hnodup : (its.map Item.ID).Nodup)
    (hnonempty : ∀ it ∈ its, it.ID ≠ "") (schedule : List Action) (w w' : World)
    (hinv : Inv db its w) (hexec : exec its w schedule = some w') : Inv db its w' := by
  induction schedule generalizing w with
  | nil => cases hexec; exact hinv
  | cons a rest ih =>
    simp only [exec] at hexec
    cases hs : step its w a with
    | none => rw [hs] at hexec; cases hexec
    | some w1 =>
      rw [hs] at hexec
      exact ih w1 (Inv_step db its hnodup hnonempty w w1 a hinv hs) hexec

/-! ## Every concurrent run can be completed -/

theorem sum_range_congr (f g : Nat → Nat) (n : Nat) (h : ∀ j, j < n → f j = g j) :
    ((List.range n).map f).sum = ((List.range n).map g).sum := by
  congr 1
  apply List.map_congr_left
  intro j hj
  exact h j (List.mem_range.mp hj)

theorem sum_range_update_lt (f : Nat → Nat) (n i v : Nat) (hi : i < n) (hv : v < f i) :
    ((List.range n).map (Function.update f i v)).sum < ((List.range n).map f).sum := by
  induction n with
  | zero => cases hi
  | succ n ih =>
    simp only [List.range_succ, List.map_append, List.sum_append, List.map_cons, List.map_nil,
      List.sum_cons, List.sum_nil, Nat.add_zero]
    by_cases hin : i = n
    · subst hin
      have hfirst := sum_range_congr (Function.update f i v) f i
        (fun j hj => Function.update_noteq (Nat.ne_of_lt hj) v f)
      rw [hfirst, Function.update_same]
      omega
    · have hlt : i < n := by omega
      have hlast : Function.update f i v n = f n := Function.update_noteq (Ne.symm hin) v f
      rw [hlast]
      have := ih hlt
      omega

theorem stepsLeft_update (pc : Nat → Pc) (i : Nat) (p : Pc) :
    (fun j => (Function.update pc i p j).stepsLeft)
      = Function.update (fun j => (pc j).stepsLeft) i p.stepsLeft := by
  funext j
  by_cases h : j = i
  · subst h; simp
  · simp [Function.update_noteq h]

/-- A step of the caller `i` that brings it nearer to its return brings the
whole run nearer to its end. -/
theorem remaining_update_lt (its : List Item) (w : World) (i : Nat) (p : Pc)
    (m : ItemMap) (wr : Option Nat) (hi : i < its.length)
    (hp : p.stepsLeft < (w.pc i).stepsLeft) :
    remaining its
        { items := m, writer := wr, readers := w.readers, pc := Function.update w.pc i p }
      < remaining its w := by
  unfold remaining
  simp only [stepsLeft_update]
  have := sum_range_update_lt (fun j => (w.pc j).stepsLeft) its.length i p.stepsLeft hi hp
  omega

theorem exists_unfinished (its : List Item) (w : World) (hreaders : w.readers = 0)
    (hpos : 0 < remaining its w) : ∃ i, i < its.length ∧ 0 < (w.pc i).stepsLeft := by
  by_contra hnone
  have hzero : ∀ j, j < its.length → (w.pc j).stepsLeft = 0 := by
    intro j hj
    by_contra hne
    exact hnone ⟨j, hj, Nat.pos_of_ne_zero hne⟩
  have hsum := sum_range_congr (fun j => (w.pc j).stepsLeft) (fun _ => 0) its.length hzero
  unfold remaining at hpos
  rw [hsum, hreaders] at hpos
  simp at hpos

/-- No deadlock: as long as something is left to do, some action can happen,
and it brings the run nearer to its end. -/
theorem exists_step (db : InMemoryDB) (its : List Item) (hnonempty : ∀ it ∈ its, it.ID ≠ "")
    (w : World) (hinv : Inv db its w) (hpos : 0 < remaining its w) :
    ∃ (a : Action) (w' : World), step its w a = some w' ∧ remaining its w' < remaining its w := by
  by_cases hreaders : 0 < w.readers
  · refine ⟨Action.readerOut, { w with readers := w.readers - 1 }, ?_, ?_⟩
    · simp only [step, if_pos hreaders]
    · unfold remaining
      simp only
      omega
  · have hr0 : w.readers = 0 := by omega
    have hrun : ∀ i item, its[i]? = some item → (w.writer = none ∨ w.writer = some i) →
        0 < (w.pc i).stepsLeft →
        ∃ (a : Action) (w' : World),
          step its w a = some w' ∧ remaining its w' < remaining its w := by
      intro i item hitem hwriter hleft
      have hme := hinv.calls i item hitem
      have hlen := (mem_of_getElem? its i item hitem).2.2
      have hid : item.ID ≠ "" := hnonempty item (mem_of_getElem? its i item hitem).2.1
      cases hpc : w.pc i with
      | start =>
        refine ⟨Action.run i, _, ?_, remaining_update_lt its w i Pc.waiting w.items w.writer
          hlen (by rw [hpc]; decide)⟩
        simp only [step, hitem, hpc, if_neg hid]
      | waiting =>
        rw [hpc] at hme
        have hfree : w.writer = none := by
          rcases hwriter with h | h
          · exact h
          · exact absurd h hme.2
        refine ⟨Action.run i, _, ?_, remaining_update_lt its w i Pc.locked w.items (some i)
          hlen (by rw [hpc]; decide)⟩
        simp only [step, hitem, hpc, hfree, hr0, and_self, if_true]
      | locked =>
        rw [hpc] at hme
        refine ⟨Action.run i, _, ?_, remaining_update_lt its w i Pc.absent w.items w.writer
          hlen (by rw [hpc]; decide)⟩
        simp only [step, hitem, hpc, hme.1]
      | absent =>
        refine ⟨Action.run i, _, ?_, remaining_update_lt its w i (Pc.leaving none)
          (w.items.assign item.ID item) w.writer hlen (by rw [hpc]; decide)⟩
        simp only [step, hitem, hpc]
      | leaving err =>
        refine ⟨Action.run i, _, ?_, remaining_update_lt its w i (Pc.done err) w.items none
          hlen (by rw [hpc]; simp [Pc.stepsLeft])⟩
        simp only [step, hitem, hpc]
      | done err =>
        rw [hpc] at hleft
        simp [Pc.stepsLeft] at hleft
    cases hwr : w.writer with
    | some h =>
      have hlen := hinv.holder h hwr
      have hitem : its[h]? = some (its[h]) := List.getElem?_eq_getElem hlen
      have hme := hinv.calls h _ hitem
      have hleft : 0 < (w.pc h).stepsLeft := by
        cases hpc : w.pc h with
        | done err => rw [hpc] at hme; exact absurd hwr hme.2.2
        | start => decide
        | waiting => decide
        | locked => decide
        | absent => decide
        | leaving err => simp [Pc.stepsLeft]
      exact hrun h _ hitem (Or.inr hwr) hleft
    | none =>
      obtain ⟨i, hlen, hleft⟩ := exists_unfinished its w hr0 hpos
      exact hrun i _ (List.getElem?_eq_getElem hlen) (Or.inl hwr) hleft

theorem exec_cons (its : List Item) (w w1 : World) (a : Action) (rest : List Action)
    (h : step its w a = some w1) : exec its w (a :: rest) = exec its w1 rest := by
  simp only [exec, h]

/-- From every state of a concurrent run, some schedule lets every caller
return. -/
theorem exists_completion (db : InMemoryDB) (its : List Item)
    (hnodup : (its.map Item.ID).Nodup) (hnonempty : ∀ it ∈ its, it.ID ≠ "")
    (n : Nat) (w : World) (hinv : Inv db its w) (hn : remaining its w ≤ n) :
    ∃ (more : List Action) (w' : World),
      exec its w more = some w' ∧ remaining its w' = 0 := by
  induction n generalizing w with
  | zero => exact ⟨[], w, rfl, Nat.le_zero.mp hn⟩
  | succ n ih =>
    by_cases hz : remaining its w = 0
    · exact ⟨[], w, rfl, hz⟩
    · obtain ⟨a, w1, hs, hlt⟩ := exists_step db its hnonempty w hinv (Nat.pos_of_ne_zero hz)
      obtain ⟨more, w', he, hdone⟩ :=
        ih w1 (Inv_step db its hnodup hnonempty w w1 a hinv hs) (by omega)
      exact ⟨a :: more, w', (exec_cons its w w1 a more hs).trans he, hdone⟩

theorem allReturned_of_remaining (its : List Item) (w : World) (h : remaining its w = 0) :
    allReturned its w := by
  intro i hi
  by_contra hnot
  have hleft : 0 < (w.pc i).stepsLeft := by
    cases hpc : w.pc i with
    | done err => rw [hpc] at hnot; exact absurd rfl hnot
    | start => decide
    | waiting => decide
    | locked => decide
    | absent => decide
    | leaving err => simp [Pc.stepsLeft]
  have hlt := sum_range_update_lt (fun j => (w.pc j).stepsLeft) its.length i 0 hi hleft
  unfold remaining at h
  omega

/-- A caller that runs alone, from `Lock` free to its return, does what
`Create` does: the step model and the sequential model are the same code. -/
theorem solo_run_eq_Create (its : List Item) (db : InMemoryDB) (w : World) (i : Nat)
    (item : Item) (hitem : its[i]? = some item) (hpc : w.pc i = Pc.start)
    (hfree : w.writer = none) (hr : w.readers = 0) (hitems : w.items = db.items) :
    ∃ (k : Nat) (w' : World),
      exec its w (List.replicate k (Action.run i)) = some w'
        ∧ w'.items = (Create db item).db.items
        ∧ w'.pc i = Pc.done (Create db item).err
        ∧ w'.writer = none := by
  by_cases h0 : item.ID = ""
  · refine ⟨1, { w with pc := Function.update w.pc i (Pc.done (some Error.ErrInvalidID)) },
      ?_, ?_, ?_, hfree⟩
    · simp [List.replicate, exec, step, hitem, hpc, h0]
    · rw [Create_empty_id db item h0]; exact hitems
    · rw [Create_empty_id db item h0]; simp
  · cases hlook : db.items.index item.ID with
    | some old =>
      refine ⟨4, { w with
          writer := none,
          pc := Function.update w.pc i
            (Pc.done (some (Error.New "item with this ID already exists"))) }, ?_, ?_, ?_, rfl⟩
      · simp [List.replicate, exec, step, hitem, hpc, h0, hfree, hr, hitems, hlook]
      · rw [Create_taken db item old h0 hlook]; exact hitems
      · rw [Create_taken db item old h0 hlook]; simp
    | none =>
      refine ⟨5, { w with
          items := w.items.assign item.ID item,
          writer := none,
          pc := Function.update w.pc i (Pc.done none) }, ?_, ?_, ?_, rfl⟩
      · simp [List.replicate, exec, step, hitem, hpc, h0, hfree, hr, hitems, hlook]
      · rw [Create_fresh db item h0 hlook]; simp [hitems]
      · rw [Create_fresh db item h0 hlook]; simp

/-! ## The handlers on a store failure -/

theorem GetItem_absent (lib : Library) (db : InMemoryDB) (r : Request)
    (hid : getIDFromURL r.path ≠ "") (habsent : db.items.index (getIDFromURL r.path) = none) :
    GetItem lib db r =
      { reply := Reply.sent
          { code := StatusNotFound,
            body := Body.json (Payload.fields [("error", "Item not found")]) },
        db := db, spawned := [] } := by
  have hget : Get db (getIDFromURL r.path) = (none, some Error.ErrNotFound) := by
    rw [Get_of_index _ _ hid]
    simp only [habsent]
  simp only [GetItem, if_neg hid, hget, if_true, respondWithError_eq]

theorem UpdateItem_absent (lib : Library) (db : InMemoryDB) (r : Request)
    (hid : getIDFromURL r.path ≠ "") (habsent : db.items.index (getIDFromURL r.path) = none) :
    UpdateItem lib db r =
      { reply := Reply.sent
          { code := StatusNotFound,
            body := Body.json (Payload.fields [("error", "Item not found")]) },
        db := db, spawned := [] } := by
  have hget : Get db (getIDFromURL r.path) = (none, some Error.ErrNotFound) := by
    rw [Get_of_index _ _ hid]
    simp only [habsent]
  simp only [UpdateItem, if_neg hid, hget, if_true, respondWithError_eq]

theorem DeleteItem_absent (lib : Library) (db : InMemoryDB) (r : Request)
    (hid : getIDFromURL r.path ≠ "") (habsent : db.items.index (getIDFromURL r.path) = none) :
    DeleteItem lib db r =
      { reply := Reply.sent
          { code := StatusNotFound,
            body := Body.json (Payload.fields [("error", "Item not found")]) },
        db := db, spawned := [] } := by
  simp only [DeleteItem, if_neg hid, Delete_absent db _ hid habsent, if_true,
    respondWithError_eq]

/-- A POST for an id that is taken: the store's "already exists" error is
answered with 500. -/
theorem CreateItem_taken (lib : Library) (db : InMemoryDB) (r : Request)
    (body : List Nat) (parsed old : Item)
    (hbody : r.body = Except.ok body) (hparse : lib.unmarshal body = Except.ok parsed)
    (hid : parsed.ID ≠ "") (htaken : db.items.index parsed.ID = some old) :
    CreateItem lib db r =
      { reply := Reply.sent
          { code := StatusInternalServerError,
            body := Body.json (Payload.fields [("error", "Error creating item")]) },
        db := db, spawned := [] } := by
  have hcreate := Create_taken db
    { parsed with CreatedAt := lib.now, UpdatedAt := lib.now } old hid htaken
  simp only [CreateItem, hbody, hparse, hcreate, respondWithError_eq]

/-! ## The store of pointers read through the heap -/

theorem Ptr.index_assign_other (l : List (String × Nat)) (k x : String) (p : Nat)
    (hx : x ≠ k) : Ptr.index (Ptr.assign l k p) x = Ptr.index l x := by
  induction l with
  | nil => simp [Ptr.assign, Ptr.index, Ne.symm hx]
  | cons e rest ih =>
    obtain ⟨k', p'⟩ := e
    by_cases h : k' = k
    · subst h
      simp [Ptr.assign, Ptr.index, Ne.symm hx]
    · simp [Ptr.assign, Ptr.index, h, ih]

theorem Ptr.Reads_assign (heap : Ptr.Heap) (pdb : Ptr.DB) (db : InMemoryDB) (p : Nat)
    (record : Item) (hreads : Ptr.Reads heap pdb db) (hrec : heap p = some record) :
    Ptr.Reads heap { items := Ptr.assign pdb.items record.ID p }
      { db with items := db.items.assign record.ID record } := by
  intro k
  by_cases hk : k = record.ID
  · subst hk
    simp [Ptr.index_after_assign, ItemMap.index_assign_self, hrec]
  · simp only [Ptr.index_assign_other _ _ _ _ hk, ItemMap.index_assign_ne _ _ _ _ hk]
    exact hreads k

/-- As long as nobody writes through the pointers, the methods on pointers do
what the methods on records do: `Get` reads the same record and returns the
same error, `Create` and `Update` return the same error and leave stores that
still correspond. -/
theorem Ptr.refines (heap : Ptr.Heap) (pdb : Ptr.DB) (db : InMemoryDB)
    (hreads : Ptr.Reads heap pdb db) :
    (∀ id : String, Ptr.deref heap (Ptr.Get pdb id) = GoCrud.Get db id)
      ∧ (∀ (p : Nat) (record : Item), heap p = some record →
          ∃ pdb1 : Ptr.DB,
            Ptr.Create heap pdb p = some ((GoCrud.Create db record).err, pdb1)
              ∧ Ptr.Reads heap pdb1 (GoCrud.Create db record).db)
      ∧ (∀ (p : Nat) (record : Item), heap p = some record →
          ∃ pdb1 : Ptr.DB,
            Ptr.Update heap pdb p = some ((GoCrud.Update db record).err, pdb1)
              ∧ Ptr.Reads heap pdb1 (GoCrud.Update db record).db) := by
  have hnone : ∀ k : String, Ptr.index pdb.items k = none ↔ db.items.index k = none := by
    intro k
    constructor
    · intro h
      rw [← (hreads k).1, h]
      rfl
    · intro h
      by_contra hne
      exact (hreads k).2 hne h
  refine ⟨?_, ?_, ?_⟩
  · intro id
    by_cases hid : id = ""
    · subst hid; rfl
    · cases hp : Ptr.index pdb.items id with
      | none =>
        have hv := (hnone id).mp hp
        simp [Ptr.deref, Ptr.Get, GoCrud.Get, hid, hp, hv]
      | some q =>
        have hv := (hreads id).1
        rw [hp] at hv
        cases hq : heap q with
        | none =>
          exfalso
          have h1 := (hreads id).2 (by rw [hp]; simp)
          rw [← hv] at h1
          simp [hq] at h1
        | some record =>
          have hv2 : db.items.index id = some record := by rw [← hv]; simp [hq]
          simp [Ptr.deref, Ptr.Get, GoCrud.Get, hid, hp, hv2, hq]
  · intro p record hrec
    by_cases h0 : record.ID = ""
    · refine ⟨pdb, ?_, ?_⟩
      · simp [Ptr.Create, hrec, h0, Create_empty_id db record h0]
      · rw [Create_empty_id db record h0]; exact hreads
    · cases hlook : db.items.index record.ID with
      | some old =>
        obtain ⟨q, hq⟩ := Option.ne_none_iff_exists'.mp
          (fun h => by rw [(hnone record.ID).mp h] at hlook; cases hlook)
        refine ⟨pdb, ?_, ?_⟩
        · simp [Ptr.Create, hrec, h0, hq, Create_taken db record old h0 hlook]
        · rw [Create_taken db record old h0 hlook]; exact hreads
      | none =>
        have hq := (hnone record.ID).mpr hlook
        refine ⟨{ items := Ptr.assign pdb.items record.ID p }, ?_, ?_⟩
        · simp [Ptr.Create, hrec, h0, hq, Create_fresh db record h0 hlook]
        · rw [Create_fresh db record h0 hlook]
          exact Ptr.Reads_assign heap pdb db p record hreads hrec
  · intro p record hrec
    by_cases h0 : record.ID = ""
    · refine ⟨pdb, ?_, ?_⟩
      · simp [Ptr.Update, hrec, h0, Update_empty_id db record h0]
      · rw [Update_empty_id db record h0]; exact hreads
    · cases hlook : db.items.index record.ID with
      | none =>
        have hq := (hnone record.ID).mpr hlook
        refine ⟨pdb, ?_, ?_⟩
        · simp [Ptr.Update, hrec, h0, hq, Update_absent db record h0 hlook]
        · rw [Update_absent db record h0 hlook]; exact hreads
      | some old =>
        obtain ⟨q, hq⟩ := Option.ne_none_iff_exists'.mp
          (fun h => by rw [(hnone record.ID).mp h] at hlook; cases hlook)
        refine ⟨{ items := Ptr.assign pdb.items record.ID p }, ?_, ?_⟩
        · simp [Ptr.Update, hrec, h0, hq, Update_present db record old h0 hlook]
        · rw [Update_present db record old h0 hlook]
          exact Ptr.Reads_assign heap pdb db p record hreads hrec

/-! ## The slice of `GetAll` -/

theorem foldl_append_slice (l acc : List Item) :
    l.foldl Slice.append (Slice.slice acc) = Slice.slice (acc ++ l) := by
  induction l generalizing acc with
  | nil => simp
  | cons x rest ih => simp [List.foldl_cons, Slice.append, ih]

theorem GetAllSlice_eq (db : InMemoryDB) :
    GetAllSlice db = (Slice.slice (GetAll db).1, none) := by
  simp [GetAllSlice, GetAll, Slice.make, foldl_append_slice]

/-! ## Sample data -/

/-- A sample item with id `a`. -/
def widget : Item :=
  { ID := "a", Name := "Widget", Description := "first", CreatedAt := 10, UpdatedAt := 10 }

/-- Another item with id `a`. -/
def widget2 : Item :=
  { ID := "a", Name := "Widget2", Description := "", CreatedAt := 10, UpdatedAt := 20 }

/-- A sample item with id `b`. -/
def gadget : Item :=
  { ID := "b", Name := "Gadget", Description := "second", CreatedAt := 30, UpdatedAt := 30 }

/-- A sample item with id `c`. -/
def gizmo : Item :=
  { ID := "c", Name := "Gizmo", Description := "third", CreatedAt := 40, UpdatedAt := 40 }

/-- An item without identifier. -/
def nameless : Item :=
  { ID := "", Name := "Nobody", Description := "", CreatedAt := 0, UpdatedAt := 0 }

/-- The store that holds `widget` and `gadget`. -/
def twoItems : InMemoryDB :=
  run NewInMemoryDB [Op.create widget, Op.create gadget]

/-- The zero `models.Item`, what the decoder makes of the JSON object without
members. -/
def blank : Item :=
  { ID := "", Name := "", Description := "", CreatedAt := 0, UpdatedAt := 0 }

/-- A decoder known on a few file contents: no bytes at all (end of input),
the text of an empty array, the text of an array holding one object without
members, two stand-in contents `1` and `2` for the snapshots of
`widget, gadget` and of `widget, gadget, widget2`; everything else is
reported as an error. -/
def tableDecode (bytes : List Nat) : Except Error (List (Option Item)) :=
  if bytes = [] then Except.error Error.EOF
  else if bytes = [91, 93] then Except.ok []
  else if bytes = [91, 123, 125, 93] then Except.ok [some blank]
  else if bytes = [1] then Except.ok [some widget, some gadget]
  else if bytes = [2] then Except.ok [some widget, some gadget, some widget2]
  else Except.error (Error.Other "invalid character")

/-- The encoder that goes with `tableDecode`. -/
def tableEncode (items : List Item) : Except Error (List Nat) :=
  if items = [] then Except.ok [91, 93]
  else if items = [widget, gadget] then Except.ok [1]
  else Except.error (Error.Other "unsupported value")

/-- A file system with four files; every path can be created. -/
def disk : FileSystem :=
  { read := fun p =>
      if p = "empty.json" then Except.ok []
      else if p = "broken.json" then Except.ok [123]
      else if p = "blank.json" then Except.ok [91, 123, 125, 93]
      else if p = "twice.json" then Except.ok [2]
      else Except.error (Error.Other "no such file")
    createErr := fun _ => none }

/-- `os.Stat` on `disk`: it succeeds on the files that `disk` has. -/
def diskStat (p : String) : Option Error :=
  match disk.read p with
  | Except.ok _ => none
  | Except.error e => some e

/-- The decoder `tableDecode`, which also knows the text of an array whose one
element is `null`: the decoder fills the slice with one nil pointer. -/
def tableDecodeNull (bytes : List Nat) : Except Error (List (Option Item)) :=
  if bytes = [91, 110, 117, 108, 108, 93] then Except.ok [none] else tableDecode bytes

/-- The file system `disk` with one more file, `null.json`. -/
def diskNull : FileSystem :=
  { disk with
    read := fun p =>
      if p = "null.json" then Except.ok [91, 110, 117, 108, 108, 93] else disk.read p }

/-- A file system on which no file can be created. -/
def readOnlyDisk : FileSystem :=
  { read := disk.read, createErr := fun _ => some (Error.Other "permission denied") }

/-- An encoder that always fails. -/
def failingEncode (_ : List Item) : Except Error (List Nat) :=
  Except.error (Error.Other "unsupported value")

/-- The store `twoItems` with persistence and auto-save switched on. -/
def twoItemsSaved : InMemoryDB :=
  { twoItems with persistPath := "database.json", autoSave := true }

/-- A `json.Unmarshal` known on two request bodies: the text of an object
without members, and a stand-in content `3` for an object that carries the id
`zzz`, the name `Widget2` and a creation time; everything else is an error. -/
def tableUnmarshal (bytes : List Nat) : Except Error Item :=
  if bytes = [123, 125] then Except.ok blank
  else if bytes = [3] then
    Except.ok { ID := "zzz", Name := "Widget2", Description := "", CreatedAt := 99,
                UpdatedAt := 0 }
  else Except.error (Error.Other "invalid character")

/-- A library whose clock shows 50 and whose `json.Marshal` accepts every item. -/
def clockAt50 : Library :=
  { now := 50, unmarshal := tableUnmarshal, marshals := fun _ => true }

/-- A heap with one record, `widget`, at address 1. -/
def heapWidget : Ptr.Heap :=
  fun p => if p = 1 then some widget else none

/-- The record `widget` after the caller's `item.Name = "Changed"`. -/
def widgetChanged : Item :=
  { widget with Name := "Changed" }

/-- A sample item with id `d`. -/
def sprocket : Item :=
  { ID := "d", Name := "Sprocket", Description := "fourth", CreatedAt := 60, UpdatedAt := 60 }

/-- Two callers of `Create` interleaved: both pass the test of the id, the
second takes the lock, inserts and returns, a reader takes and gives back the
read lock, then the first takes the lock, inserts and returns. -/
def interleaved : List Action :=
  [Action.run 0, Action.run 1, Action.run 1, Action.run 1, Action.run 1, Action.run 1,
   Action.readerIn, Action.readerOut,
   Action.run 0, Action.run 0, Action.run 0, Action.run 0]

/-- An item created in the year 10000: its times are 3652059 days after the
zero `time.Time`. -/
def farFuture : Item :=
  { ID := "y", Name := "Late", Description := "", CreatedAt := 315537897600000000000,
    UpdatedAt := 315537897600000000000 }

/-- The store that holds `farFuture`. -/
def lateStore : InMemoryDB :=
  run NewInMemoryDB [Op.create farFuture]

/-- Whether `Time.MarshalJSON` accepts an instant: its year lies in 0 to 9999. -/
def yearInRange (t : Int) : Bool :=
  decide (-31622400000000000 ≤ t) && decide (t < 315537897600000000000)

/-- The encoder `tableEncode`, which like `json.Encoder.Encode` rejects an item
whose time `Time.MarshalJSON` does not accept. -/
def rangeEncode (items : List Item) : Except Error (List Nat) :=
  if items.all (fun i => yearInRange i.CreatedAt && yearInRange i.UpdatedAt) then
    tableEncode items
  else
    Except.error (Error.Other "Time.MarshalJSON: year outside of range [0,9999]")

/-- A decoder that reads as `json.Decoder.Decode` does, the first JSON value of
the input and nothing after it. It is known on a line feed (white space only:
`io.EOF`), on the text of an empty array followed by the letter `x` (the empty
slice), on the text `null` (a nil slice, no elements), on a lone opening brace
(`io.ErrUnexpectedEOF`), and is `tableDecode` elsewhere. -/
def streamDecode (bytes : List Nat) : Except Error (List (Option Item)) :=
  if bytes = [10] then Except.error Error.EOF
  else if bytes = [91, 93, 120] then Except.ok []
  else if bytes = [110, 117, 108, 108] then Except.ok []
  else if bytes = [123] then Except.error (Error.Other "unexpected EOF")
  else tableDecode bytes

/-- The file system `disk` with three more files: a line feed, an empty array
followed by the letter `x`, and the text `null`. -/
def diskOdd : FileSystem :=
  { disk with
    read := fun p =>
      if p = "newline.json" then Except.ok [10]
      else if p = "trailing.json" then Except.ok [91, 93, 120]
      else if p = "null-value.json" then Except.ok [110, 117, 108, 108]
      else disk.read p }

/-! ## The claims -/

/-- C1. After any sequence of Create, Update and Delete calls on a store that
starts empty, `Get id` for a non-empty `id` returns the item of the last
successful Create or Update on `id`; it returns `ErrNotFound` when the last
successful operation on `id` was a Delete or when none succeeded, and
in particular when no Create on `id` ever succeeded. -/
theorem get_reflects_last_write (db : InMemoryDB) (ops : List Op) (id : String)
    (hempty : db.items = ItemMap.make) (hid : id ≠ "") :
    Get (run db ops) id =
        (match lastSuccessfulWrite id (history db ops) with
         | some (some item) => (some item, none)
         | some none => (none, some Error.ErrNotFound)
         | none => (none, some Error.ErrNotFound))
      ∧ (createSucceeded id (history db ops) = false →
          Get (run db ops) id = (none, some Error.ErrNotFound)) := by
  have hstart : db.items.index id = none := by rw [hempty]; rfl
  constructor
  · rw [Get_of_index _ _ hid, index_run]
    cases lastSuccessfulWrite id (history db ops) with
    | none => simp only [hstart]
    | some w => cases w <;> rfl
  · intro hnone
    rw [Get_of_index _ _ hid, index_run_of_no_create ops db id hstart hnone]

/-- C1 at a run that creates `a`, updates it, deletes `b` in vain and creates `b`. -/
theorem get_reflects_last_write_witness :
    Get (run NewInMemoryDB
        [Op.create widget, Op.update widget2, Op.delete "b", Op.create gadget]) "a"
      = (some widget2, none) :=
  (get_reflects_last_write NewInMemoryDB
    [Op.create widget, Op.update widget2, Op.delete "b", Op.create gadget] "a"
    rfl (by decide)).1

/-- C2. Create of an item whose non-empty id is not in the store succeeds and
`Get` then returns that item; a second Create of any item with the same id
fails with the error made by `errors.New("item with this ID already exists")`,
which is neither `ErrInvalidID` nor `ErrNotFound`, and leaves the store as the
first Create left it. -/
theorem create_once_then_already_exists (db : InMemoryDB) (item : Item)
    (hid : item.ID ≠ "") (hfresh : db.items.index item.ID = none) :
    (Create db item).err = none
      ∧ Get (Create db item).db item.ID = (some item, none)
      ∧ ∀ again : Item, again.ID = item.ID →
          (Create (Create db item).db again).err
              = some (Error.New "item with this ID already exists")
            ∧ Error.New "item with this ID already exists" ≠ Error.ErrInvalidID
            ∧ Error.New "item with this ID already exists" ≠ Error.ErrNotFound
            ∧ (Create (Create db item).db again).db = (Create db item).db := by
  rw [Create_fresh db item hid hfresh]
  have hnow : (db.items.assign item.ID item).index item.ID = some item :=
    ItemMap.index_assign_self _ _ _
  refine ⟨rfl, ?_, ?_⟩
  · rw [Get_of_index _ _ hid]
    simp only [hnow]
  · intro again hsame
    have hid2 : again.ID ≠ "" := by rw [hsame]; exact hid
    have htaken : ({ db with items := db.items.assign item.ID item } : InMemoryDB).items.index
        again.ID = some item := by rw [hsame]; exact hnow
    rw [Create_taken _ again item hid2 htaken]
    exact ⟨rfl, by decide, by decide, rfl⟩

/-- C2 at the empty store and the item `widget`. -/
theorem create_once_then_already_exists_witness :
    (Create NewInMemoryDB widget).err = none
      ∧ Get (Create NewInMemoryDB widget).db "a" = (some widget, none)
      ∧ (Create (Create NewInMemoryDB widget).db widget2).err
          = some (Error.New "item with this ID already exists")
      ∧ (Create (Create NewInMemoryDB widget).db widget2).db
          = (Create NewInMemoryDB widget).db :=
  have h := create_once_then_already_exists NewInMemoryDB widget (by decide) rfl
  ⟨h.1, h.2.1, (h.2.2 widget2 rfl).1, (h.2.2 widget2 rfl).2.2.2⟩

/-- C3. With an empty id, `Get`, `Delete`, `Create` and `Update` all fail with
`ErrInvalidID`, whatever the store holds, and the store they leave is the
store they were given (`Get` has no store to leave: it only reads). -/
theorem empty_id_is_invalid (db : InMemoryDB) (item : Item) (h : item.ID = "") :
    Get db "" = (none, some Error.ErrInvalidID)
      ∧ Delete db "" = { err := some Error.ErrInvalidID, db := db, spawned := [] }
      ∧ Create db item = { err := some Error.ErrInvalidID, db := db, spawned := [] }
      ∧ Update db item = { err := some Error.ErrInvalidID, db := db, spawned := [] } :=
  ⟨rfl, Delete_empty_id db, Create_empty_id db item h, Update_empty_id db item h⟩

/-- C3 at a store with two items and an item without id. -/
theorem empty_id_is_invalid_witness :
    nameless.ID = ""
      ∧ (Create twoItems nameless).err = some Error.ErrInvalidID
      ∧ (Create twoItems nameless).db.items = twoItems.items
      ∧ (Update twoItems nameless).err = some Error.ErrInvalidID
      ∧ (Update twoItems nameless).db.items = twoItems.items :=
  have h := empty_id_is_invalid twoItems nameless rfl
  ⟨rfl, by rw [h.2.2.1], by rw [h.2.2.1], by rw [h.2.2.2], by rw [h.2.2.2]⟩

/-- C4. Update of an item whose non-empty id is not in the store fails with
`ErrNotFound` and leaves the store as it was, the id still absent; when the id
is in the store, Update succeeds and the value stored under the id is the
supplied item itself. -/
theorem update_needs_existing_then_replaces (db : InMemoryDB) (item : Item)
    (hid : item.ID ≠ "") :
    (db.items.index item.ID = none →
        (Update db item).err = some Error.ErrNotFound
          ∧ (Update db item).db = db
          ∧ (Update db item).db.items.index item.ID = none)
      ∧ (db.items.index item.ID ≠ none →
        (Update db item).err = none
          ∧ (Update db item).db.items.index item.ID = some item
          ∧ Get (Update db item).db item.ID = (some item, none)) := by
  constructor
  · intro habsent
    rw [Update_absent db item hid habsent]
    exact ⟨rfl, rfl, habsent⟩
  · intro hpresent
    obtain ⟨old, hold⟩ := Option.ne_none_iff_exists'.mp hpresent
    rw [Update_present db item old hid hold]
    have hnow : (db.items.assign item.ID item).index item.ID = some item :=
      ItemMap.index_assign_self _ _ _
    refine ⟨rfl, hnow, ?_⟩
    rw [Get_of_index _ _ hid]
    simp only [hnow]

/-- C4 at the empty store (the id is absent) and at a store that holds `a`. -/
theorem update_needs_existing_then_replaces_witness :
    ((Update NewInMemoryDB widget2).err = some Error.ErrNotFound
        ∧ (Update NewInMemoryDB widget2).db = NewInMemoryDB)
      ∧ ((Update twoItems widget2).err = none
        ∧ Get (Update twoItems widget2).db "a" = (some widget2, none)) :=
  have h0 := (update_needs_existing_then_replaces NewInMemoryDB widget2 (by decide)).1 rfl
  have h1 := (update_needs_existing_then_replaces twoItems widget2 (by decide)).2 (by decide)
  ⟨⟨h0.1, h0.2.1⟩, ⟨h1.1, h1.2.2⟩⟩

/-- C5. Delete of a non-empty id that is in the store succeeds, removes the id
and leaves the entry of every other id as it was; a second Delete of the id
fails with `ErrNotFound` and leaves the store as the first Delete left it. -/
theorem delete_once_then_not_found (db : InMemoryDB) (id : String)
    (hid : id ≠ "") (hpresent : db.items.index id ≠ none) :
    (Delete db id).err = none
      ∧ (Delete db id).db.items.index id = none
      ∧ (∀ other : String, other ≠ id →
          (Delete db id).db.items.index other = db.items.index other)
      ∧ (Delete (Delete db id).db id).err = some Error.ErrNotFound
      ∧ (Delete (Delete db id).db id).db = (Delete db id).db := by
  obtain ⟨old, hold⟩ := Option.ne_none_iff_exists'.mp hpresent
  rw [Delete_present db id old hid hold]
  have hgone : ({ db with items := db.items.delete id } : InMemoryDB).items.index id = none :=
    ItemMap.index_delete_self _ _
  rw [Delete_absent _ id hid hgone]
  exact ⟨rfl, hgone, fun other hne => ItemMap.index_delete_ne _ _ _ hne, rfl, rfl⟩

/-- C5 at a store with two items, deleting `a`. -/
theorem delete_once_then_not_found_witness :
    (Delete twoItems "a").err = none
      ∧ Get (Delete twoItems "a").db "a" = (none, some Error.ErrNotFound)
      ∧ Get (Delete twoItems "a").db "b" = (some gadget, none)
      ∧ (Delete (Delete twoItems "a").db "a").err = some Error.ErrNotFound :=
  have h := delete_once_then_not_found twoItems "a" (by decide) (by decide)
  ⟨h.1, by decide, by decide, h.2.2.2.1⟩

/-- C6, as stated, fails: the store that holds an item created in the year
10000 is reachable by one Create; the encoder rejects the time, `SaveToFile`
returns the error and leaves the file it created empty; `LoadFromFile` of that
file into a fresh store returns nil and the store holds nothing, while the
saved store holds the item. -/
theorem save_then_load_round_trip_counterexample :
    Reachable lateStore
      ∧ (SaveToFile rangeEncode disk lateStore "snapshot.json").1
          = some (Error.Other "Time.MarshalJSON: year outside of range [0,9999]")
      ∧ (SaveToFile rangeEncode disk lateStore "snapshot.json").2.read "snapshot.json"
          = Except.ok []
      ∧ LoadFromFile tableDecode (SaveToFile rangeEncode disk lateStore "snapshot.json").2
          NewInMemoryDB "snapshot.json" = LoadResult.returned none NewInMemoryDB
      ∧ (GetAll NewInMemoryDB).1 = []
      ∧ (GetAll lateStore).1 = [farFuture]
      ∧ ¬ (GetAll NewInMemoryDB).1.Perm (GetAll lateStore).1 := by
  refine ⟨⟨"", false, [Op.create farFuture], rfl⟩, rfl, rfl, rfl, rfl, rfl, ?_⟩
  intro h
  have hlen := h.length_eq
  have h0 : (GetAll NewInMemoryDB).1.length = 0 := rfl
  have h1 : (GetAll lateStore).1.length = 1 := rfl
  omega

/-- C6, amended. Round trip of a save that succeeds. For a store reachable
from an empty one by Create, Update and Delete: when `SaveToFile` returns nil
and the decoder reads back the items that the encoder wrote, `LoadFromFile` of
the same path into a fresh store (or any other) returns nil and the loaded
store has the map of the saved one: `Get` agrees on every id, and `GetAll` of
the loaded store is a permutation of `GetAll` of the saved one. -/
theorem save_then_load_round_trip
    (encode : List Item → Except Error (List Nat))
    (decode : List Nat → Except Error (List (Option Item)))
    (fs : FileSystem) (db fresh : InMemoryDB) (p : String)
    (hreach : Reachable db)
    (hsave : (SaveToFile encode fs db p).1 = none)
    (hback : ∀ bytes : List Nat, encode db.items.range = Except.ok bytes →
      decode bytes = Except.ok (db.items.range.map some)) :
    ∃ loaded : InMemoryDB,
      LoadFromFile decode (SaveToFile encode fs db p).2 fresh p
          = LoadResult.returned none loaded
        ∧ loaded.items = db.items
        ∧ (∀ id : String, Get loaded id = Get db id)
        ∧ (GetAll loaded).2 = none
        ∧ (GetAll loaded).1.Perm (GetAll db).1 := by
  have hkeyed := WellKeyed_of_Reachable db hreach
  have hentries := entries_of_WellKeyed db.items hkeyed
  obtain ⟨bytes, henc, hfs⟩ : ∃ bytes : List Nat, encode db.items.range = Except.ok bytes
      ∧ (SaveToFile encode fs db p).2 = fs.write p bytes := by
    unfold SaveToFile at hsave ⊢
    cases hc : fs.createErr p with
    | some e => simp [hc] at hsave
    | none =>
      cases he : encode db.items.range with
      | error e => simp [hc, he] at hsave
      | ok bytes => exact ⟨bytes, rfl, by simp [hc, he]⟩
  have hdec := hback bytes henc
  have hkeys : db.items.range.map Item.ID = db.items.entries.map Prod.fst := by
    conv_rhs => rw [hentries]
    rw [List.map_map]
    rfl
  have hloop : (db.items.range.foldl (fun acc r => acc.assign r.ID r) ItemMap.make)
      = db.items := by
    apply ItemMap.ext_entries
    rw [entries_foldl_assign]
    · simpa [ItemMap.make] using hentries.symm
    · simpa [ItemMap.make, hkeys] using db.items.nodup
  have hread : (fs.write p bytes).read p = Except.ok bytes := by
    simp [FileSystem.write]
  refine ⟨{ fresh with items := db.items }, ?_, rfl, fun id => rfl, rfl, List.Perm.refl _⟩
  rw [hfs]
  simp only [LoadFromFile, hread, hdec, loadItems_some, hloop]

/-- C6 amended, at the store that holds `widget` and `gadget`, saved to
`snapshot.json`. -/
theorem save_then_load_round_trip_witness :
    (SaveToFile tableEncode disk twoItems "snapshot.json").1 = none
      ∧ ∃ loaded : InMemoryDB,
          LoadFromFile tableDecode (SaveToFile tableEncode disk twoItems "snapshot.json").2
              NewInMemoryDB "snapshot.json" = LoadResult.returned none loaded
            ∧ loaded.items = twoItems.items
            ∧ (∀ id : String, Get loaded id = Get twoItems id)
            ∧ (GetAll loaded).2 = none
            ∧ (GetAll loaded).1.Perm (GetAll twoItems).1 :=
  ⟨rfl, save_then_load_round_trip tableEncode tableDecode disk twoItems NewInMemoryDB
    "snapshot.json" ⟨"", false, [Op.create widget, Op.create gadget], rfl⟩ rfl
    (fun bytes h => by
      have h1 : (Except.ok [1] : Except Error (List Nat)) = Except.ok bytes := h
      cases h1
      rfl)⟩

/-- C7, as stated, fails: loading the zero-byte file `empty.json` into a store
that holds two items returns nil and the store still holds both. -/
theorem load_zero_byte_file_counterexample :
    disk.read "empty.json" = Except.ok []
      ∧ tableDecode [] = Except.error Error.EOF
      ∧ LoadFromFile tableDecode disk twoItems "empty.json"
          = LoadResult.returned none twoItems
      ∧ (GetAll twoItems).1 = [widget, gadget] :=
  ⟨rfl, rfl, by decide, by decide⟩

/-- C7, amended. `LoadFromFile` on a zero-byte file, on which the decoder
reports `io.EOF`, returns nil and leaves the store as it was; a store that
held no items before the call holds none after it. -/
theorem load_zero_byte_file_keeps_store
    (decode : List Nat → Except Error (List (Option Item)))
    (fs : FileSystem) (db : InMemoryDB) (p : String)
    (hfile : fs.read p = Except.ok [])
    (heof : decode [] = Except.error Error.EOF) :
    LoadFromFile decode fs db p = LoadResult.returned none db
      ∧ (db.items = ItemMap.make → (GetAll db).1 = []) := by
  constructor
  · simp only [LoadFromFile, hfile, heof, if_true]
  · intro hempty
    simp only [GetAll, hempty]
    rfl

/-- C7 amended, at the file `empty.json` and the empty store. -/
theorem load_zero_byte_file_keeps_store_witness :
    LoadFromFile tableDecode disk NewInMemoryDB "empty.json"
        = LoadResult.returned none NewInMemoryDB
      ∧ (GetAll NewInMemoryDB).1 = [] :=
  have h := load_zero_byte_file_keeps_store tableDecode disk NewInMemoryDB "empty.json" rfl rfl
  ⟨h.1, h.2 rfl⟩

/-- C8, as stated, fails: the file `newline.json` holds a line feed and nothing
else, the decoder reports `io.EOF` and `LoadFromFile` returns nil, not a decode
error; the file `trailing.json` holds an empty array followed by the letter
`x`, the decoder reads the array and stops, and `LoadFromFile` returns nil and
replaces the two items of the store by nothing. -/
theorem load_malformed_file_counterexample :
    diskOdd.read "newline.json" = Except.ok [10]
      ∧ streamDecode [10] = Except.error Error.EOF
      ∧ LoadFromFile streamDecode diskOdd twoItems "newline.json"
          = LoadResult.returned none twoItems
      ∧ diskOdd.read "trailing.json" = Except.ok [91, 93, 120]
      ∧ streamDecode [91, 93, 120] = Except.ok []
      ∧ LoadFromFile streamDecode diskOdd twoItems "trailing.json"
          = LoadResult.returned none { twoItems with items := ItemMap.make }
      ∧ (GetAll twoItems).1 = [widget, gadget]
      ∧ (GetAll { twoItems with items := ItemMap.make }).1 = [] :=
  ⟨rfl, rfl, by decide, rfl, rfl, by decide, by decide, by decide⟩

/-- C8, amended. A `LoadFromFile` that returns an error leaves the store as it
was given, whatever the file and the decoder, and it returns the error of the
decoder whenever that error is not `io.EOF`. Malformed content does not always
fail: when the decoder reports `io.EOF`, `LoadFromFile` returns nil with the
store as given, and when the decoder accepts the content as a sequence of
records, it returns nil and the store holds those records in place of what it
held. -/
theorem load_error_leaves_store
    (decode : List Nat → Except Error (List (Option Item)))
    (fs : FileSystem) (db : InMemoryDB) (p : String) :
    (∀ (e : Error) (after : InMemoryDB),
        LoadFromFile decode fs db p = LoadResult.returned (some e) after → after = db)
      ∧ (∀ (bytes : List Nat) (e : Error), fs.read p = Except.ok bytes →
          decode bytes = Except.error e → e ≠ Error.EOF →
          LoadFromFile decode fs db p = LoadResult.returned (some e) db)
      ∧ (∀ bytes : List Nat, fs.read p = Except.ok bytes →
          decode bytes = Except.error Error.EOF →
          LoadFromFile decode fs db p = LoadResult.returned none db)
      ∧ (∀ (bytes : List Nat) (records : List Item), fs.read p = Except.ok bytes →
          decode bytes = Except.ok (records.map some) →
          LoadFromFile decode fs db p
            = LoadResult.returned none
                { db with
                  items := records.foldl (fun acc r => acc.assign r.ID r) ItemMap.make }) := by
  refine ⟨?_, ?_, ?_, ?_⟩
  · intro e after h
    cases hr : fs.read p with
    | error e0 =>
      simp only [LoadFromFile, hr] at h
      cases h
      rfl
    | ok bytes =>
      cases hd : decode bytes with
      | error e1 =>
        by_cases he : e1 = Error.EOF
        · simp [LoadFromFile, hr, hd, he] at h
        · simp only [LoadFromFile, hr, hd, if_neg he] at h
          cases h
          rfl
      | ok items =>
        cases hl : loadItems ItemMap.make items with
        | ok m => simp [LoadFromFile, hr, hd, hl] at h
        | error m => simp [LoadFromFile, hr, hd, hl] at h
  · intro bytes e hfile hbad hne
    simp only [LoadFromFile, hfile, hbad, if_neg hne]
  · intro bytes hfile heof
    simp only [LoadFromFile, hfile, heof, if_true]
  · intro bytes records hfile hdec
    simp only [LoadFromFile, hfile, hdec, loadItems_some]

/-- C8 amended, at the file `broken.json`, which holds a lone opening brace,
and at a path that cannot be opened. -/
theorem load_error_leaves_store_witness :
    LoadFromFile streamDecode diskOdd twoItems "broken.json"
        = LoadResult.returned (some (Error.Other "unexpected EOF")) twoItems
      ∧ LoadFromFile streamDecode diskOdd twoItems "missing.json"
        = LoadResult.returned (some (Error.Other "no such file")) twoItems :=
  have h := load_error_leaves_store streamDecode diskOdd twoItems "broken.json"
  ⟨h.2.1 [123] (Error.Other "unexpected EOF") rfl rfl (by decide), by decide⟩

/-- C9, at the failing input: the file `blank.json` holds one record, without
identifier; the load returns nil and keeps the record under the empty key,
where `Get` on the identifier of the record cannot reach it: it returns
`ErrInvalidID`, not the record of the file. -/
theorem load_keeps_record_get_cannot_return :
    disk.read "blank.json" = Except.ok [91, 123, 125, 93]
      ∧ tableDecode [91, 123, 125, 93] = Except.ok [some blank]
      ∧ ∃ loaded : InMemoryDB,
          LoadFromFile tableDecode disk twoItems "blank.json"
              = LoadResult.returned none loaded
            ∧ Get loaded blank.ID = (none, some Error.ErrInvalidID)
            ∧ Get loaded blank.ID ≠ (some blank, none) :=
  ⟨rfl, rfl,
    { twoItems with items := ItemMap.make.assign "" blank }, by decide, by decide, by decide⟩

/-- Apart from records without identifier, a load replaces the contents. When
the decoder reads the file as a sequence of records, `LoadFromFile` returns nil
and the store holds the records of the file and nothing else: for every
non-empty id, `Get` returns the last record of the file with that id, and
`ErrNotFound` when the file has none, whatever the store held before. -/
theorem load_replaces_contents
    (decode : List Nat → Except Error (List (Option Item)))
    (fs : FileSystem) (db : InMemoryDB) (p : String) (bytes : List Nat)
    (records : List Item)
    (hfile : fs.read p = Except.ok bytes)
    (hdec : decode bytes = Except.ok (records.map some)) :
    ∃ loaded : InMemoryDB,
      LoadFromFile decode fs db p = LoadResult.returned none loaded
        ∧ ∀ id : String, id ≠ "" →
            Get loaded id =
              (match lastRecord id records with
               | some r => (some r, none)
               | none => (none, some Error.ErrNotFound)) := by
  refine ⟨{ db with items := records.foldl (fun acc r => acc.assign r.ID r) ItemMap.make },
    ?_, ?_⟩
  · simp only [LoadFromFile, hfile, hdec, loadItems_some]
  · intro id hid
    rw [Get_of_index _ _ hid]
    simp only [index_foldl_assign, ItemMap.index_make]
    cases lastRecord id records <;> rfl

/-- The replacement at the file `twice.json`, in which the id `a` occurs twice,
loaded into a store that holds an item the file does not have. -/
theorem load_replaces_contents_witness :
    ∃ loaded : InMemoryDB,
      LoadFromFile tableDecode disk (run NewInMemoryDB [Op.create gizmo]) "twice.json"
          = LoadResult.returned none loaded
        ∧ ∀ id : String, id ≠ "" →
            Get loaded id =
              (match lastRecord id [widget, gadget, widget2] with
               | some r => (some r, none)
               | none => (none, some Error.ErrNotFound)) :=
  load_replaces_contents tableDecode disk (run NewInMemoryDB [Op.create gizmo]) "twice.json" [2]
    [widget, gadget, widget2] rfl rfl

/-- C10, at the failing input: loading the file `blank.json`, whose one record
has no identifier, into the empty store returns nil and leaves an item with an
empty identifier in the store, stored under the empty key. -/
theorem load_admits_empty_identifier :
    ∃ loaded : InMemoryDB,
      LoadFromFile tableDecode disk NewInMemoryDB "blank.json"
          = LoadResult.returned none loaded
        ∧ loaded.items.index "" = some blank
        ∧ blank.ID = ""
        ∧ ¬ WellKeyed loaded.items := by
  refine ⟨{ NewInMemoryDB with items := ItemMap.make.assign "" blank },
    by decide, by decide, rfl, ?_⟩
  intro h
  exact (h ("", blank) (by decide)).1 rfl

/-- C13. `NewPersistentDB`: when `os.Stat` succeeds on the configured path, the
constructor ends as `LoadFromFile` on the new empty store ends: a load that
returns an error gives that error and no store, a load that returns nil gives
the loaded store, which for a file read as a sequence of records answers `Get`
with the records of the file; when `os.Stat` fails, it returns the empty store
with the configured path and flag. `NewInMemoryDB` is the empty store with no
path and auto-save off, so it never starts a save. -/
theorem new_persistent_db_follows_load
    (decode : List Nat → Except Error (List (Option Item)))
    (stat : String → Option Error) (fs : FileSystem) (config : Config) :
    (stat config.PersistPath = none →
        (∀ (e : Error) (d : InMemoryDB),
            LoadFromFile decode fs
                { items := ItemMap.make, persistPath := config.PersistPath,
                  autoSave := config.AutoSave } config.PersistPath
              = LoadResult.returned (some e) d →
            NewPersistentDB decode stat fs config = NewResult.returned none (some e))
          ∧ (∀ d : InMemoryDB,
            LoadFromFile decode fs
                { items := ItemMap.make, persistPath := config.PersistPath,
                  autoSave := config.AutoSave } config.PersistPath
              = LoadResult.returned none d →
            NewPersistentDB decode stat fs config = NewResult.returned (some d) none)
          ∧ (∀ (bytes : List Nat) (records : List Item),
            fs.read config.PersistPath = Except.ok bytes →
            decode bytes = Except.ok (records.map some) →
            ∃ d : InMemoryDB,
              NewPersistentDB decode stat fs config = NewResult.returned (some d) none
                ∧ d.persistPath = config.PersistPath ∧ d.autoSave = config.AutoSave
                ∧ ∀ id : String, id ≠ "" →
                    Get d id =
                      (match lastRecord id records with
                       | some r => (some r, none)
                       | none => (none, some Error.ErrNotFound))))
      ∧ (stat config.PersistPath ≠ none →
          NewPersistentDB decode stat fs config
            = NewResult.returned
                (some { items := ItemMap.make, persistPath := config.PersistPath,
                        autoSave := config.AutoSave }) none)
      ∧ NewInMemoryDB.items = ItemMap.make
      ∧ (GetAll NewInMemoryDB).1 = []
      ∧ NewInMemoryDB.persistPath = ""
      ∧ NewInMemoryDB.autoSave = false
      ∧ autoSaveGo NewInMemoryDB = [] := by
  refine ⟨fun hstat => ⟨?_, ?_, ?_⟩, ?_, rfl, rfl, rfl, rfl, rfl⟩
  · intro e d hload
    simp only [NewPersistentDB, hstat, hload]
  · intro d hload
    simp only [NewPersistentDB, hstat, hload]
  · intro bytes records hfile hdec
    refine ⟨{ items := records.foldl (fun acc r => acc.assign r.ID r) ItemMap.make,
              persistPath := config.PersistPath, autoSave := config.AutoSave },
      ?_, rfl, rfl, ?_⟩
    · simp only [NewPersistentDB, hstat, LoadFromFile, hfile, hdec, loadItems_some]
    · intro id hid
      rw [Get_of_index _ _ hid]
      simp only [index_foldl_assign, ItemMap.index_make]
      cases lastRecord id records <;> rfl
  · intro hstat
    obtain ⟨e, he⟩ := Option.ne_none_iff_exists'.mp hstat
    simp only [NewPersistentDB, he]

/-- C13 at the existing file `twice.json`, at the malformed file `broken.json`
and at a path that does not exist. -/
theorem new_persistent_db_follows_load_witness :
    (∃ d : InMemoryDB,
        NewPersistentDB tableDecode diskStat disk
            { PersistPath := "twice.json", AutoSave := true }
          = NewResult.returned (some d) none
          ∧ Get d "a" = (some widget2, none) ∧ Get d "b" = (some gadget, none))
      ∧ NewPersistentDB tableDecode diskStat disk
            { PersistPath := "broken.json", AutoSave := true }
          = NewResult.returned none (some (Error.Other "invalid character"))
      ∧ NewPersistentDB tableDecode diskStat disk
            { PersistPath := "database.json", AutoSave := true }
          = NewResult.returned
              (some { items := ItemMap.make, persistPath := "database.json",
                      autoSave := true }) none := by
  have h1 := new_persistent_db_follows_load tableDecode diskStat disk
    { PersistPath := "twice.json", AutoSave := true }
  have h2 := new_persistent_db_follows_load tableDecode diskStat disk
    { PersistPath := "broken.json", AutoSave := true }
  have h3 := new_persistent_db_follows_load tableDecode diskStat disk
    { PersistPath := "database.json", AutoSave := true }
  refine ⟨?_, ?_, h3.2.1 (by decide)⟩
  · obtain ⟨d, hd, _, _, hget⟩ := (h1.1 rfl).2.2 [2] [widget, gadget, widget2] rfl rfl
    exact ⟨d, hd, hget "a" (by decide), hget "b" (by decide)⟩
  · exact (h2.1 rfl).1 (Error.Other "invalid character")
      { items := ItemMap.make, persistPath := "broken.json", autoSave := true } (by decide)

/-- C14. `GetAll` never returns an error and the slice it returns is never nil;
the slice has as many elements as the map has keys and holds, key by key, the
item stored under each key of the map, the keys being pairwise distinct and
exactly the ids that `Get` finds; for a store without items the slice is the
empty non-nil slice. -/
theorem get_all_lists_every_item_once (db : InMemoryDB) :
    (GetAll db).2 = none
      ∧ (GetAll db).1.length = db.items.len
      ∧ (GetAll db).1.map some = db.items.keys.map db.items.index
      ∧ db.items.keys.Nodup
      ∧ (∀ k : String, k ∈ db.items.keys ↔ db.items.index k ≠ none)
      ∧ (GetAll { db with items := ItemMap.make }).1 = []
      ∧ GetAllSlice db = (Slice.slice (GetAll db).1, none)
      ∧ (GetAllSlice db).1 ≠ Slice.nil
      ∧ (GetAllSlice { db with items := ItemMap.make }).1 = Slice.slice [] := by
  refine ⟨rfl, ?_, range_eq_keys_index db.items, db.items.nodup, ?_, rfl,
    GetAllSlice_eq db, ?_, ?_⟩
  · simp [GetAll, ItemMap.range, ItemMap.len]
  · intro k
    exact (lookupIn_ne_none_iff db.items.entries k).symm
  · rw [GetAllSlice_eq]
    intro h
    cases h
  · rw [GetAllSlice_eq]
    rfl

/-- C15. The error a Create, Update or Delete returns and the map it leaves
depend on the map and the argument alone: two stores with the same map give
the same error and the same map whatever their `persistPath` and `autoSave`,
whatever file system the started saves write to and whatever the encoder
does. -/
theorem mutation_result_ignores_persistence
    (encode1 encode2 : List Item → Except Error (List Nat)) (fs1 fs2 : FileSystem)
    (db1 db2 : InMemoryDB) (op : Op) (hsame : db1.items = db2.items) :
    (Op.applyAndSave encode1 fs1 db1 op).1.err = (Op.applyAndSave encode2 fs2 db2 op).1.err
      ∧ (Op.applyAndSave encode1 fs1 db1 op).1.db.items
          = (Op.applyAndSave encode2 fs2 db2 op).1.db.items :=
  apply_items_congr db1 db2 op hsame

/-- C15 at a Create on the store `twoItems`: without persistence, and with
auto-save on while every save fails. -/
theorem mutation_result_ignores_persistence_witness :
    (Op.applyAndSave tableEncode disk twoItems (Op.create gizmo)).1.spawned = []
      ∧ (Op.applyAndSave failingEncode readOnlyDisk twoItemsSaved (Op.create gizmo)).1.spawned
          = ["database.json"]
      ∧ (SaveToFile failingEncode readOnlyDisk
            (Op.applyAndSave failingEncode readOnlyDisk twoItemsSaved (Op.create gizmo)).1.db
            "database.json").1 = some (Error.Other "permission denied")
      ∧ (Op.applyAndSave tableEncode disk twoItems (Op.create gizmo)).1.err
          = (Op.applyAndSave failingEncode readOnlyDisk twoItemsSaved (Op.create gizmo)).1.err
      ∧ (Op.applyAndSave tableEncode disk twoItems (Op.create gizmo)).1.db.items
          = (Op.applyAndSave failingEncode readOnlyDisk twoItemsSaved
              (Op.create gizmo)).1.db.items :=
  have h := mutation_result_ignores_persistence tableEncode failingEncode disk readOnlyDisk
    twoItems twoItemsSaved (Op.create gizmo) rfl
  ⟨by decide, by decide, by decide, h.1, h.2⟩

/-- C20, at the failing input: the file `null.json` holds an array whose one
element is `null`; the decoder accepts it and fills the slice with a nil
pointer, and the loop of `LoadFromFile` dereferences it at `item.ID`: the call
panics instead of returning, with the map already replaced by an empty one,
and so does `NewPersistentDB` on that path. -/
theorem load_null_element_panics :
    diskNull.read "null.json" = Except.ok [91, 110, 117, 108, 108, 93]
      ∧ tableDecodeNull [91, 110, 117, 108, 108, 93] = Except.ok [none]
      ∧ LoadFromFile tableDecodeNull diskNull twoItems "null.json"
          = LoadResult.panicked { twoItems with items := ItemMap.make }
      ∧ NewPersistentDB tableDecodeNull (fun _ => none) diskNull
            { PersistPath := "null.json", AutoSave := true }
          = NewResult.panicked :=
  ⟨rfl, rfl, by decide, by decide⟩

/-- C11, on the failing inputs: a POST whose body decodes to an item without id.
The store rejects it with `ErrInvalidID` and `CreateItem` answers 500 Internal
Server Error, not 400 Bad Request, leaving the store as it was. -/
theorem create_item_without_id_answers_500 (lib : Library) (db : InMemoryDB) (r : Request)
    (body : List Nat) (parsed : Item)
    (hbody : r.body = Except.ok body) (hparse : lib.unmarshal body = Except.ok parsed)
    (hid : parsed.ID = "") :
    (Create db { parsed with CreatedAt := lib.now, UpdatedAt := lib.now }).err
        = some Error.ErrInvalidID
      ∧ CreateItem lib db r =
          { reply := Reply.sent
              { code := StatusInternalServerError,
                body := Body.json (Payload.fields [("error", "Error creating item")]) },
            db := db, spawned := [] }
      ∧ StatusInternalServerError ≠ StatusBadRequest := by
  have hcreate := Create_empty_id db
    { parsed with CreatedAt := lib.now, UpdatedAt := lib.now } hid
  refine ⟨by rw [hcreate], ?_, by decide⟩
  simp only [CreateItem, hbody, hparse, hcreate, respondWithError_eq]

/-- C11 at the request `POST /api/items` with the body `{}` on a store with
two items. -/
theorem create_item_without_id_answers_500_witness :
    (CreateItem clockAt50 twoItems
        { path := "/api/items", body := Except.ok [123, 125] }).reply
      = Reply.sent
          { code := 500,
            body := Body.json (Payload.fields [("error", "Error creating item")]) } :=
  by rw [(create_item_without_id_answers_500 clockAt50 twoItems
    { path := "/api/items", body := Except.ok [123, 125] } [123, 125] blank rfl rfl rfl).2.1]; rfl

/-- C12. When the id of the URL is in the store and the body is read and
decoded, `UpdateItem` leaves under that id the item whose `ID` is the id of
the URL, whose `CreatedAt` is the one stored before, whose `UpdatedAt` is the
time of the call and whose `Name` and `Description` are those decoded from the
body, whatever `ID` and `CreatedAt` the body carried; the answer is 200 with
that item when it can be encoded. -/
theorem update_item_keeps_id_and_creation_time (lib : Library) (db : InMemoryDB)
    (r : Request) (body : List Nat) (parsed old : Item)
    (hid : getIDFromURL r.path ≠ "")
    (hold : db.items.index (getIDFromURL r.path) = some old)
    (hbody : r.body = Except.ok body) (hparse : lib.unmarshal body = Except.ok parsed) :
    Get (UpdateItem lib db r).db (getIDFromURL r.path)
        = (some { ID := getIDFromURL r.path, Name := parsed.Name,
                  Description := parsed.Description, CreatedAt := old.CreatedAt,
                  UpdatedAt := lib.now }, none)
      ∧ (lib.marshals { ID := getIDFromURL r.path, Name := parsed.Name,
                        Description := parsed.Description, CreatedAt := old.CreatedAt,
                        UpdatedAt := lib.now } = true →
          (UpdateItem lib db r).reply
            = Reply.sent
                { code := StatusOK,
                  body := Body.json (Payload.item
                    { ID := getIDFromURL r.path, Name := parsed.Name,
                      Description := parsed.Description, CreatedAt := old.CreatedAt,
                      UpdatedAt := lib.now }) }) := by
  have hget : Get db (getIDFromURL r.path) = (some old, none) := by
    rw [Get_of_index _ _ hid]
    simp only [hold]
  have hupd := Update_present db
    { parsed with ID := getIDFromURL r.path, CreatedAt := old.CreatedAt, UpdatedAt := lib.now }
    old hid hold
  constructor
  · have hdb : (UpdateItem lib db r).db
        = (Update db { parsed with ID := getIDFromURL r.path, CreatedAt := old.CreatedAt,
                                   UpdatedAt := lib.now }).db := by
      simp only [UpdateItem, if_neg hid, hget, hbody, hparse, hupd]
    rw [hdb, hupd, Get_of_index _ _ hid]
    simp only [ItemMap.index_assign_self]
  · intro hm
    simp only [UpdateItem, if_neg hid, hget, hbody, hparse, hupd, respondWithJSON,
      canMarshal, hm, if_true]

/-- C12 at `PUT /api/items/a` on a store that holds `widget` under `a`, with a
body that carries another id and another creation time. -/
theorem update_item_keeps_id_and_creation_time_witness :
    tableUnmarshal [3]
        = Except.ok { ID := "zzz", Name := "Widget2", Description := "", CreatedAt := 99,
                      UpdatedAt := 0 }
      ∧ Get (UpdateItem clockAt50 twoItems
            { path := "/api/items/a", body := Except.ok [3] }).db "a"
          = (some { ID := "a", Name := "Widget2", Description := "", CreatedAt := 10,
                    UpdatedAt := 50 }, none) :=
  ⟨rfl, (update_item_keeps_id_and_creation_time clockAt50 twoItems
    { path := "/api/items/a", body := Except.ok [3] } [3]
    { ID := "zzz", Name := "Widget2", Description := "", CreatedAt := 99, UpdatedAt := 0 }
    widget (by decide) (by decide) rfl rfl).1⟩

/-- C19. For an id without a slash, `getIDFromURL` on `/api/items/` followed by
the id returns the id; on a path that splits at the slashes into at most three
segments, such as `/api/items`, and on `/api/items/` it returns the empty
string; and whenever it returns the empty string, `GetItem`, `UpdateItem` and
`DeleteItem` answer 400 with the store untouched, whatever the store holds. -/
theorem get_id_from_url_reads_fourth_segment :
    (∀ id : String, '/' ∉ id.toList → getIDFromURL ("/api/items/" ++ id) = id)
      ∧ (∀ path : String, (splitSlash path.toList).length ≤ 3 → getIDFromURL path = "")
      ∧ (splitSlash "/api/items".toList).length = 3
      ∧ getIDFromURL "/api/items" = ""
      ∧ getIDFromURL "/api/items/" = ""
      ∧ ∀ (lib : Library) (db : InMemoryDB) (r : Request), getIDFromURL r.path = "" →
          GetItem lib db r =
              { reply := Reply.sent
                  { code := StatusBadRequest,
                    body := Body.json (Payload.fields [("error", "Invalid item ID")]) },
                db := db, spawned := [] }
            ∧ UpdateItem lib db r =
              { reply := Reply.sent
                  { code := StatusBadRequest,
                    body := Body.json (Payload.fields [("error", "Invalid item ID")]) },
                db := db, spawned := [] }
            ∧ DeleteItem lib db r =
              { reply := Reply.sent
                  { code := StatusBadRequest,
                    body := Body.json (Payload.fields [("error", "Invalid item ID")]) },
                db := db, spawned := [] } := by
  refine ⟨getIDFromURL_items, getIDFromURL_short, by decide, by decide, by decide, ?_⟩
  intro lib db r h
  rw [GetItem_no_id lib db r h, UpdateItem_no_id lib db r h, DeleteItem_no_id lib db r h,
    respondWithError_eq]
  exact ⟨rfl, rfl, rfl⟩

/-- C16, as stated, fails: the caller creates the record at address 1, `Get`
hands back that same address, and after the caller's `item.Name = "Changed"`
through it a later `Get` on the id shows the changed name. -/
theorem store_owns_items_counterexample :
    ∃ db : Ptr.DB,
      Ptr.Create heapWidget { items := [] } 1 = some (none, db)
        ∧ Ptr.Get db "a" = (some 1, none)
        ∧ Ptr.deref heapWidget (Ptr.Get db "a") = (some widget, none)
        ∧ Ptr.deref (Ptr.write heapWidget 1 widgetChanged) (Ptr.Get db "a")
            = (some widgetChanged, none)
        ∧ widgetChanged ≠ widget :=
  ⟨{ items := [("a", 1)] }, by decide, by decide, by decide, by decide, by decide⟩

/-- C16, amended. The store shares its item pointers with its callers. The
pointer `Get` returns is the one the map holds, so a record written through it
is what a later `Get` on the same id shows, and it is among the pointers
`GetAll` returns; Create on a fresh id and Update on a present id keep the
caller's pointer itself, so a record the caller writes through it after the
call is what `Get` on the id shows. -/
theorem store_shares_item_pointers (heap : Ptr.Heap) (db : Ptr.DB) (p : Nat)
    (record changed : Item) (hrec : heap p = some record) (hid : record.ID ≠ "") :
    (∀ (id : String) (q : Nat), Ptr.Get db id = (some q, none) →
        Ptr.deref (Ptr.write heap q changed) (Ptr.Get db id) = (some changed, none)
          ∧ q ∈ (Ptr.GetAll db).1)
      ∧ (Ptr.index db.items record.ID = none →
          ∃ db1 : Ptr.DB,
            Ptr.Create heap db p = some (none, db1)
              ∧ Ptr.Get db1 record.ID = (some p, none)
              ∧ Ptr.deref (Ptr.write heap p changed) (Ptr.Get db1 record.ID)
                  = (some changed, none))
      ∧ (Ptr.index db.items record.ID ≠ none →
          ∃ db1 : Ptr.DB,
            Ptr.Update heap db p = some (none, db1)
              ∧ Ptr.Get db1 record.ID = (some p, none)
              ∧ Ptr.deref (Ptr.write heap p changed) (Ptr.Get db1 record.ID)
                  = (some changed, none)) := by
  have hseen : ∀ (d : Ptr.DB) (id : String) (q : Nat), Ptr.Get d id = (some q, none) →
      Ptr.deref (Ptr.write heap q changed) (Ptr.Get d id) = (some changed, none) := by
    intro d id q hget
    rw [hget]
    simp [Ptr.deref, Ptr.write]
  have hkept : Ptr.Get { items := Ptr.assign db.items record.ID p } record.ID
      = (some p, none) :=
    Ptr.Get_of_held_pointer _ _ _ hid (Ptr.index_after_assign _ _ _)
  refine ⟨fun id q hget => ⟨hseen db id q hget, ?_⟩, fun hfresh => ?_, fun hpresent => ?_⟩
  · exact Ptr.mem_of_index _ _ _ (Ptr.index_of_Get db id q hget)
  · refine ⟨{ items := Ptr.assign db.items record.ID p }, ?_, hkept, hseen _ _ _ hkept⟩
    simp only [Ptr.Create, hrec, if_neg hid, hfresh]
  · obtain ⟨q, hq⟩ := Option.ne_none_iff_exists'.mp hpresent
    refine ⟨{ items := Ptr.assign db.items record.ID p }, ?_, hkept, hseen _ _ _ hkept⟩
    simp only [Ptr.Update, hrec, if_neg hid, hq]

/-- C16 amended, at the record `widget` at address 1 and the empty store. -/
theorem store_shares_item_pointers_witness :
    ∃ db1 : Ptr.DB,
      Ptr.Create heapWidget { items := [] } 1 = some (none, db1)
        ∧ Ptr.Get db1 "a" = (some 1, none)
        ∧ Ptr.deref (Ptr.write heapWidget 1 widgetChanged) (Ptr.Get db1 "a")
            = (some widgetChanged, none) :=
  (store_shares_item_pointers heapWidget { items := [] } 1 widget widgetChanged rfl
    (by decide)).2.1 rfl

/-- C18, as stated, fails: in the save of a store with two items the file is
created, written and closed between `RLock` and `RUnlock`; no file operation
happens outside the lock. -/
theorem save_releases_lock_before_write_counterexample :
    SaveToFileEvents tableEncode disk twoItems "snapshot.json"
        = [Event.RLock, Event.copyItems 2, Event.osCreate "snapshot.json" false,
           Event.encode "snapshot.json" false, Event.close "snapshot.json", Event.RUnlock]
      ∧ fileEventsOutsideLock false
          (SaveToFileEvents tableEncode disk twoItems "snapshot.json") = false := by
  constructor <;> decide

/-- C18, amended. `SaveToFile` holds the read lock for the whole call: in every
execution `RLock` is the first operation and the deferred `RUnlock` the last,
and `os.Create`, the write of the encoder and `file.Close` all happen while
the lock is held. The trace writes the file exactly when `SaveToFile` returns
nil. -/
theorem save_holds_lock_through_write
    (encode : List Item → Except Error (List Nat)) (fs : FileSystem)
    (db : InMemoryDB) (filepath : String) :
    (SaveToFileEvents encode fs db filepath).head? = some Event.RLock
      ∧ (SaveToFileEvents encode fs db filepath).getLast? = some Event.RUnlock
      ∧ (SaveToFileEvents encode fs db filepath).count Event.RUnlock = 1
      ∧ (∃ failed : Bool,
          Event.osCreate filepath failed ∈ SaveToFileEvents encode fs db filepath)
      ∧ fileEventsUnderLock false (SaveToFileEvents encode fs db filepath) = true
      ∧ ((SaveToFile encode fs db filepath).1 = none ↔
          Event.encode filepath false ∈ SaveToFileEvents encode fs db filepath) := by
  unfold SaveToFileEvents SaveToFile
  cases hc : fs.createErr filepath with
  | some e =>
    simp [fileEventsUnderLock, Event.isFile, List.count_cons]
  | none =>
    cases he : encode db.items.range with
    | error e => simp [he, fileEventsUnderLock, Event.isFile, List.count_cons]
    | ok bytes => simp [he, fileEventsUnderLock, Event.isFile, List.count_cons]

/-- C17. No lost updates. Goroutines call `Create` at the same time with items
of pairwise distinct non-empty ids, none of them in the store, while readers
take and give back the read lock. In every state that an interleaving of
their steps reaches: at most one caller is between `Lock` and `Unlock`, every
caller that has returned got nil, and every item stored before is still
there; once all have returned, `Get` returns each of the items; and from
every such state some schedule lets all the callers return. -/
theorem concurrent_creates_lose_nothing (db : InMemoryDB) (its : List Item)
    (hnodup : (its.map Item.ID).Nodup) (hnonempty : ∀ it ∈ its, it.ID ≠ "")
    (hfresh : ∀ it ∈ its, db.items.index it.ID = none) :
    ∀ (schedule : List Action) (w : World),
      exec its (World.initial db) schedule = some w →
        (∀ i j : Nat, i < its.length → j < its.length →
            (w.pc i).critical = true → (w.pc j).critical = true → i = j)
          ∧ (∀ (i : Nat) (err : Option Error), i < its.length →
              w.pc i = Pc.done err → err = none)
          ∧ (∀ (k : String) (old : Item), db.items.index k = some old →
              w.items.index k = some old)
          ∧ (allReturned its w →
              ∀ it ∈ its, Get { db with items := w.items } it.ID = (some it, none))
          ∧ ∃ (more : List Action) (w' : World),
              exec its w more = some w' ∧ allReturned its w' := by
  intro schedule w hexec
  have hinv : Inv db its w :=
    Inv_exec db its hnodup hnonempty schedule _ w (Inv_initial db its hfresh) hexec
  have hholds : ∀ i : Nat, i < its.length → (w.pc i).critical = true → w.writer = some i := by
    intro i hi hcrit
    have hme := hinv.calls i _ (List.getElem?_eq_getElem hi)
    cases hpc : w.pc i with
    | start => rw [hpc] at hcrit; cases hcrit
    | waiting => rw [hpc] at hcrit; cases hcrit
    | done err => rw [hpc] at hcrit; cases hcrit
    | locked => rw [hpc] at hme; exact hme.2
    | absent => rw [hpc] at hme; exact hme.2
    | leaving err => rw [hpc] at hme; exact hme.2.2
  refine ⟨?_, ?_, ?_, ?_, ?_⟩
  · intro i j hi hj hci hcj
    exact Option.some.inj ((hholds i hi hci).symm.trans (hholds j hj hcj))
  · intro i err hi hpc
    have hme := hinv.calls i _ (List.getElem?_eq_getElem hi)
    rw [hpc] at hme
    exact hme.1
  · intro k old hold
    have hk : k ∉ its.map Item.ID := by
      intro hmem
      obtain ⟨it, hit, hid⟩ := List.mem_map.mp hmem
      have := hfresh it hit
      rw [hid, hold] at this
      cases this
    rw [hinv.others k hk]
    exact hold
  · intro hall it hit
    obtain ⟨i, hi, hget⟩ := List.getElem_of_mem hit
    have hme := hinv.calls i it (by rw [List.getElem?_eq_getElem hi, hget])
    have hret := hall i hi
    rw [Get_of_index _ _ (hnonempty it hit)]
    cases hpc : w.pc i with
    | done err =>
      rw [hpc] at hme
      simp only [hme.2.1]
    | start => rw [hpc] at hret; cases hret
    | waiting => rw [hpc] at hret; cases hret
    | locked => rw [hpc] at hret; cases hret
    | absent => rw [hpc] at hret; cases hret
    | leaving err => rw [hpc] at hret; cases hret
  · obtain ⟨more, w', he, hdone⟩ :=
      exists_completion db its hnodup hnonempty (remaining its w) w hinv (Nat.le_refl _)
    exact ⟨more, w', he, allReturned_of_remaining its w' hdone⟩

/-- C17 at two callers on a store with two items: the interleaving
`interleaved` runs to its end, both callers return nil and the store then
holds the four items. -/
theorem concurrent_creates_lose_nothing_witness :
    ∃ w : World,
      exec [gizmo, sprocket] (World.initial twoItems) interleaved = some w
        ∧ w.pc 0 = Pc.done none ∧ w.pc 1 = Pc.done none
        ∧ (∀ it ∈ [gizmo, sprocket],
            Get { twoItems with items := w.items } it.ID = (some it, none))
        ∧ w.items.index "a" = some widget ∧ w.items.index "b" = some gadget := by
  obtain ⟨w, hw⟩ : ∃ w : World,
      exec [gizmo, sprocket] (World.initial twoItems) interleaved = some w
        ∧ w.pc 0 = Pc.done none ∧ w.pc 1 = Pc.done none :=
    ⟨_, rfl, by decide, by decide⟩
  have h := concurrent_creates_lose_nothing twoItems [gizmo, sprocket]
    (by decide) (by decide) (by decide) interleaved w hw.1
  refine ⟨w, hw.1, hw.2.1, hw.2.2, h.2.2.2.1 ?_, h.2.2.1 "a" widget (by decide),
    h.2.2.1 "b" gadget (by decide)⟩
  intro i hi
  have hi2 : i = 0 ∨ i = 1 := by
    simp only [List.length_cons, List.length_nil] at hi
    omega
  rcases hi2 with rfl | rfl
  · rw [hw.2.1]; rfl
  · rw [hw.2.2]; rfl

end GoCrud
